import Mathlib

/-!
Verification of the LeadGen repository against its specification.

The repository's visible source is the React/TypeScript frontend (manual lead
entry, lead list with selection and route planning, API client). The backend
services described by the spec (Normalizer, EntityMatcher, IngestionResolver,
DistanceMatrixBuilder, RouteOptimizer) are not part of the visible source;
definitions for them below are modelled from the spec and say so in their doc
comments. Frontend functions (`toggleLead`, `handleSubmit`, `suggestEmails`,
`routesApi.planRoute`) are embedded directly from the TypeScript source.

JavaScript strings are modelled as `List Char`; `String.split(sep)` for a
one-character separator is `splitOnChar`, `String.replace(pat, empty)` (which
replaces only the first occurrence) is `dropFirstOcc`, and
`String.toLowerCase` is `toLowerL` (ASCII case mapping, which agrees with
JavaScript on the ASCII inputs used throughout).
-/

/-- Conversion from a Lean string literal to the `List Char` model of a
JavaScript string. -/
def jstr (s : String) : List Char := s.data

/-- Model of JavaScript `s.split(sep)` for a single-character separator:
splits at every occurrence of `sep`, keeping empty segments. -/
def splitOnChar (sep : Char) : List Char → List (List Char)
  | [] => [[]]
  | c :: cs =>
    match splitOnChar sep cs with
    | [] => [[]]
    | w :: ws => if c = sep then [] :: w :: ws else (c :: w) :: ws

/-- Model of JavaScript `s.replace(pat, empty-string)`: removes the first
occurrence of `pat`, or returns the string unchanged when `pat` does not
occur. -/
def dropFirstOcc (pat : List Char) : List Char → List Char
  | [] => []
  | c :: cs =>
    if List.isPrefixOf pat (c :: cs) then List.drop pat.length (c :: cs)
    else c :: dropFirstOcc pat cs

/-- Model of JavaScript `s.toLowerCase()` (ASCII range). -/
def toLowerL (l : List Char) : List Char := l.map Char.toLower

/-- Code: `frontend/src/pages/LeadsList.tsx`, `toggleLead`. The selection is a
JavaScript `Set` of lead ids; the handler copies it, then deletes the id when
present and adds it when absent. Only membership is observable, so the set is
modelled as a `Finset ℕ`. -/
def toggleLead (selectedLeads : Finset ℕ) (id : ℕ) : Finset ℕ :=
  if id ∈ selectedLeads then selectedLeads.erase id else insert id selectedLeads

/-- The nine text fields of the manual-entry form (`ManualEntry`). -/
structure ManualEntryForm where
  companyName : List Char
  companyWebsite : List Char
  jobTitle : List Char
  jobDescription : List Char
  location : List Char
  contactName : List Char
  contactEmail : List Char
  contactPhone : List Char
  notes : List Char

/-- The query parameters of the manual-import request sent by `handleSubmit`
to the import endpoint. -/
structure ImportJobParams where
  company_name : List Char
  company_website : List Char
  job_title : List Char
  job_description : List Char
  location : List Char
  contact_name : List Char
  contact_email : List Char
  contact_phone : List Char
  notes : List Char
deriving DecidableEq

/-- Outcome of a manual-entry submission: either rejected by validation (no
request issued) or submitted with the request that is sent. -/
inductive SubmitOutcome
  | rejected
  | submitted (req : ImportJobParams)
deriving DecidableEq

/-- Code: `ManualEntry`, `handleSubmit`. The handler returns early with an
error toast when the company name or the job title is empty (JavaScript
falsiness of a string state variable is emptiness); otherwise it posts the
nine form fields to the manual-import endpoint. -/
def handleSubmit (f : ManualEntryForm) : SubmitOutcome :=
  if f.companyName = [] ∨ f.jobTitle = [] then .rejected
  else
    .submitted
      { company_name := f.companyName
        company_website := f.companyWebsite
        job_title := f.jobTitle
        job_description := f.jobDescription
        location := f.location
        contact_name := f.contactName
        contact_email := f.contactEmail
        contact_phone := f.contactPhone
        notes := f.notes }

/-- The body of the route-planning request, as serialized by axios: an
`undefined` start location is omitted from the JSON body, so it is an
`Option`. -/
structure RoutePlanRequest where
  lead_ids : List Nat
  start_location : Option (List Char)
  optimize : Bool
deriving DecidableEq

/-- Code: `services/api.ts`, `routesApi.planRoute`: builds the request body
from the three arguments. -/
def routesApi.planRoute (leadIds : List Nat) (startLocation : Option (List Char))
    (optimize : Bool) : RoutePlanRequest :=
  { lead_ids := leadIds, start_location := startLocation, optimize := optimize }

/-- Code: `routesApi.planRoute` called without the optional arguments, as the
TypeScript defaults resolve them: `startLocation` stays `undefined` and
`optimize` defaults to `true`. -/
def routesApi.planRouteDefault (leadIds : List Nat) : RoutePlanRequest :=
  routesApi.planRoute leadIds none true

/-- Code: `frontend/src/pages/LeadsList.tsx`, `planRoute`: warns and sends
nothing when the selection is empty, otherwise calls
`routesApi.planRoute(Array.from(selectedLeads))` with only the lead ids. The
selection is passed in iteration (insertion) order as a list. -/
def LeadsList.planRoute (selectedLeads : List Nat) : Option RoutePlanRequest :=
  if selectedLeads.length = 0 then none
  else some (routesApi.planRouteDefault selectedLeads)

/-- Code: `ManualEntry`, `suggestEmails`: the domain used for the suggested
emails is `companyWebsite.replace(http-scheme, empty).replace(https-scheme,
empty).split(slash)[0]` — the first occurrence of each scheme string is
removed and the result is truncated at the first slash. No lowercasing and no
`www.` stripping happens here. -/
def jsDomain (companyWebsite : List Char) : List Char :=
  (splitOnChar '/'
    (dropFirstOcc (jstr ("https://")) (dropFirstOcc (jstr ("http://")) companyWebsite))).headD []

/-- An email string `local@domain`. -/
def emailOf (loc dom : List Char) : List Char := loc ++ '@' :: dom

/-- Code: `ManualEntry`, `suggestEmails`. Returns `none` when no suggestions
are produced: empty name or website (early warning return), fewer than two
space-separated segments (early warning return), or an empty first/last
segment — in that case the JavaScript code indexes into an empty string,
`undefined.toLowerCase()` throws a `TypeError`, and the surrounding
`try/catch` swallows it without setting any suggestions. The network call to
the suggest-emails endpoint does not influence the locally generated
patterns and is elided. -/
def suggestEmails (contactName companyWebsite : List Char) : Option (List (List Char)) :=
  if contactName = [] ∨ companyWebsite = [] then none
  else
    let names := splitOnChar ' ' contactName
    if names.length < 2 then none
    else
      let firstName := names.headD []
      let lastName := names.getLastD []
      if firstName = [] ∨ lastName = [] then none
      else
        let domain := jsDomain companyWebsite
        let f := toLowerL firstName
        let l := toLowerL lastName
        let f0 := toLowerL (firstName.take 1)
        let l0 := toLowerL (lastName.take 1)
        some
          [emailOf (f ++ '.' :: l) domain,
           emailOf (f ++ l) domain,
           emailOf (f0 ++ l) domain,
           emailOf f domain,
           emailOf (f ++ l0) domain,
           emailOf (f0 ++ '.' :: l) domain]

/-- Modelled from the spec: whitespace trimming used by the Normalizer
(section 4.1); the backend Normalizer implementation is not part of the
visible source. -/
def trimChars (l : List Char) : List Char :=
  ((l.dropWhile Char.isWhitespace).reverse.dropWhile Char.isWhitespace).reverse

/-- Modelled from the spec: the Normalizer's protocol stripping for
website/domain fields (section 4.1); the backend Normalizer implementation is
not part of the visible source. -/
def dropScheme (l : List Char) : List Char :=
  if List.isPrefixOf (jstr ("http://")) l then List.drop 7 l
  else if List.isPrefixOf (jstr ("https://")) l then List.drop 8 l
  else l

/-- Fuel-driven removal of leading `www.` segments; with fuel at least the
length of the list every leading `www.` is removed. -/
def dropWwwFuel : Nat → List Char → List Char
  | 0, l => l
  | n + 1, l =>
    if List.isPrefixOf (jstr ("www.")) l then dropWwwFuel n (List.drop 4 l) else l

/-- Modelled from the spec: the Normalizer rule for website/domain fields
(section 4.1) — lowercase, trim whitespace, strip the protocol, the `www`
segments and any path, keeping only the registrable domain; the backend
Normalizer implementation is not part of the visible source. -/
def normalizeDomain (raw : List Char) : List Char :=
  let s := toLowerL (trimChars raw)
  let s2 := (dropScheme s).takeWhile (fun c => c ≠ '/')
  dropWwwFuel s2.length s2

/-- The attribute slots of a stored entity, as far as merge-fill is
concerned. -/
inductive EField
  | name
  | domain
  | industry
  | phone
  | address
deriving DecidableEq

/-- Modelled from the spec: an entity is a record of optional attributes
(`none` is an empty field); the backend entity models are not part of the
visible source. -/
def Entity : Type := EField → Option String

/-- Modelled from the spec: merge-fill (section 4.2) — any attribute present
on the candidate but empty on the stored entity is copied in; populated
attributes on the stored entity are never overwritten. The backend
EntityMatcher implementation is not part of the visible source. -/
def mergeFill (stored candidate : Entity) : Entity := fun f =>
  match stored f with
  | some v => some v
  | none => candidate f

/-- The four resolution statuses of the EntityMatcher (section 4.2). -/
inductive MatchStatus
  | EXACT
  | FUZZY
  | AMBIGUOUS
  | NEW
deriving DecidableEq

/-- Modelled from the spec: the matcher's side effect on the stored entity —
merge-fill on `EXACT` and `FUZZY`, no change on `AMBIGUOUS` (held for manual
review) and `NEW` (a fresh entity is created instead). The backend
EntityMatcher implementation is not part of the visible source. -/
def EntityMatcher.applyResolution (status : MatchStatus) (stored candidate : Entity) : Entity :=
  match status with
  | .EXACT => mergeFill stored candidate
  | .FUZZY => mergeFill stored candidate
  | .AMBIGUOUS => stored
  | .NEW => stored

/-- Concrete stored entity used by witnesses: populated name, empty domain. -/
def storedEx : Entity := fun f =>
  match f with
  | .name => some ("Acme")
  | _ => none

/-- Concrete candidate entity used by witnesses: provides a domain and a
conflicting name. -/
def candEx : Entity := fun f =>
  match f with
  | .name => some ("Acme LLC")
  | .domain => some ("acme.com")
  | _ => none

/-- An identity-key index for one entity table: identity key mapped to the
stored row id (design note, section 9: the dedup memory is an explicit
identity-key index backed by unique constraints). -/
abbrev Table : Type := List (String × Nat)

/-- Lookup of an identity key in a table index. -/
def lookupTbl (tbl : Table) (k : String) : Option Nat :=
  match tbl with
  | [] => none
  | (k2, v) :: rest => if k2 = k then some v else lookupTbl rest k

/-- Exact-key lookup-or-create: a hit returns the stored id and leaves the
table unchanged (the merge-fill side effect touches attributes, never the
identity-key index); a miss inserts the key under the fresh id. Returns the
table, the resolved id and the next fresh id. -/
def upsertTbl (tbl : Table) (k : String) (fresh : Nat) : Table × Nat × Nat :=
  match lookupTbl tbl k with
  | some id => (tbl, id, fresh)
  | none => ((k, fresh) :: tbl, fresh, fresh + 1)

/-- The attributes of a stored entity or incoming candidate that the
EntityMatcher's similarity scoring operates on (section 4.2, step 2): name
tokens, and the optional domain, phone and city fields. -/
structure Attrs where
  nameTokens : List String
  domain : Option String
  phone : Option String
  city : Option String
deriving DecidableEq

/-- A stored entity row: its id, the coarse-filter scope it was stored under
(city/state for companies, the owning company id for contacts and postings),
and its attributes. -/
structure EntityRow where
  id : Nat
  scope : String
  attrs : Attrs
deriving DecidableEq

/-- One entity table: the identity-key index (section 9: an explicit
identity-key index backed by unique constraints — the dedup memory) and the
stored rows. A key recorded in the index maps to the id of the row it
resolves to; fuzzy resolution records the candidate's key against the matched
row (deduplication tracking), so the index may hold several keys per row. -/
structure EntityTable where
  index : List (String × Nat)
  rows : List EntityRow
deriving DecidableEq

/-- Modelled from the spec: token-set overlap on names (section 4.2, step 2),
as a percentage — scores are rationals in the unit interval represented in
hundredths so that the model stays decidable. -/
def tokenOverlapPct (xs ys : List String) : ℤ :=
  let u := (xs ++ ys).eraseDups
  if u.length = 0 then 0
  else ((100 * ((xs.eraseDups).filter fun t => ys.contains t).length) / u.length : Nat)

/-- Modelled from the spec: the similarity score of a candidate against a
stored entity (section 4.2, step 2) — token-set overlap on the name plus a
bonus for a matching domain and phone, clamped into the unit interval
(hundredths). -/
def simScore (c e : Attrs) : ℤ :=
  min 100
    (tokenOverlapPct c.nameTokens e.nameTokens +
      (if c.domain.isSome ∧ c.domain = e.domain then 10 else 0) +
      (if c.phone.isSome ∧ c.phone = e.phone then 10 else 0))

/-- The match threshold of section 4.2, step 3: 0.85, in hundredths. -/
def matchThreshold : ℤ := 85

/-- The near-tie window of section 4.2, steps 3 and 4: 0.05, in hundredths. -/
def nearTieWindow : ℤ := 5

/-- Best similarity score over a candidate set (-1 when the set is empty,
which is below every threshold). -/
def bestScore (a : Attrs) (cands : List EntityRow) : ℤ :=
  cands.foldr (fun r acc => max (simScore a r.attrs) acc) (-1)

/-- The outcome of matching one candidate against a table, carrying the
matched row id for EXACT and FUZZY. -/
inductive MatchOutcome
  | exact (id : Nat)
  | fuzzy (id : Nat)
  | ambiguous
  | new
deriving DecidableEq

/-- Modelled from the spec: the EntityMatcher algorithm (section 4.2).
Step 1: exact lookup of the identity key in the index — a hit is EXACT.
Step 2: otherwise score against the bounded candidate set given by the coarse
filter (rows sharing the scope), never the full table. Steps 3-5: best score
at or above the threshold with no second candidate within the near-tie window
is FUZZY; a near-tie above threshold is AMBIGUOUS (held, not auto-resolved);
below threshold is NEW. In the FUZZY branch the best row is unique within the
window, so taking the first row attaining the best score is canonical. -/
def matchEntity (tbl : EntityTable) (scope key : String) (a : Attrs) : MatchOutcome :=
  match lookupTbl tbl.index key with
  | some id => .exact id
  | none =>
    let cands := tbl.rows.filter fun r => r.scope = scope
    if bestScore a cands < matchThreshold then .new
    else
      match cands.find? fun r => simScore a r.attrs = bestScore a cands with
      | none => .new
      | some r =>
        if 2 ≤ (cands.filter fun q => bestScore a cands - nearTieWindow ≤ simScore a q.attrs).length
        then .ambiguous
        else .fuzzy r.id

/-- The section 4.2 contract `resolve(candidate) -> (matched_id, status,
score)`: an EXACT hit scores 1.0, otherwise the best similarity score over
the coarse-filtered candidate set is reported (clamped at 0 for NEW on an
empty set). -/
structure MatchResult where
  status : MatchStatus
  matched_id : Option Nat
  score : ℤ
deriving DecidableEq

/-- Modelled from the spec: the EntityMatcher's external contract (section
4.2), wrapping `matchEntity` into its `(matched_id, status, score)` result. -/
def EntityMatcher.resolve (tbl : EntityTable) (scope key : String) (a : Attrs) : MatchResult :=
  match matchEntity tbl scope key a with
  | .exact id => { status := .EXACT, matched_id := some id, score := 100 }
  | .fuzzy id =>
    { status := .FUZZY, matched_id := some id,
      score := bestScore a (tbl.rows.filter fun r => r.scope = scope) }
  | .ambiguous =>
    { status := .AMBIGUOUS, matched_id := none,
      score := bestScore a (tbl.rows.filter fun r => r.scope = scope) }
  | .new =>
    { status := .NEW, matched_id := none,
      score := max 0 (bestScore a (tbl.rows.filter fun r => r.scope = scope)) }

/-- Modelled from the spec: merge-fill on the scored attributes (section 4.2)
— attributes present on the candidate but empty on the stored row are copied
in, populated attributes are never overwritten. -/
def mergeAttrs (stored cand : Attrs) : Attrs :=
  { nameTokens := if stored.nameTokens = [] then cand.nameTokens else stored.nameTokens
    domain :=
      match stored.domain with
      | some v => some v
      | none => cand.domain
    phone :=
      match stored.phone with
      | some v => some v
      | none => cand.phone
    city :=
      match stored.city with
      | some v => some v
      | none => cand.city }

/-- Merge-fill the candidate's attributes into the row with the given id. -/
def updateRow (rows : List EntityRow) (id : Nat) (a : Attrs) : List EntityRow :=
  rows.map fun r => if r.id = id then { r with attrs := mergeAttrs r.attrs a } else r

/-- Modelled from the spec: applying one match outcome to a table (sections
4.2 and 9). EXACT merge-fills the matched row; FUZZY merge-fills it and also
records the candidate's identity key against the matched id in the index —
the dedup memory remembering that this key resolves to that entity, which is
what makes re-import idempotent for merged candidates; AMBIGUOUS holds the
candidate, touching nothing; NEW inserts the key and a fresh row. Returns the
table, the resolved id (`none` when held), the status for the batch report,
and the next fresh id. -/
def resolveEntity (tbl : EntityTable) (scope key : String) (a : Attrs) (fresh : Nat) :
    EntityTable × Option Nat × MatchStatus × Nat :=
  match matchEntity tbl scope key a with
  | .exact id =>
    ({ index := tbl.index, rows := updateRow tbl.rows id a }, some id, .EXACT, fresh)
  | .fuzzy id =>
    ({ index := (key, id) :: tbl.index, rows := updateRow tbl.rows id a }, some id, .FUZZY, fresh)
  | .ambiguous => (tbl, none, .AMBIGUOUS, fresh)
  | .new =>
    ({ index := (key, fresh) :: tbl.index,
       rows := { id := fresh, scope := scope, attrs := a } :: tbl.rows },
     some fresh, .NEW, fresh + 1)

/-- Modelled from the spec: the persistent store seen by the
IngestionResolver — one entity table per fuzzy-matched type, the Lead
identity-key index, and the fresh-id counter. The backend store
implementation is not part of the visible source. -/
structure Store where
  companies : EntityTable
  contacts : EntityTable
  postings : EntityTable
  leads : Table
  nextId : Nat
deriving DecidableEq

/-- An incoming candidate record: the company identity key and scored
attributes, and optionally a contact and a job-posting, each an identity key
(scoped to the resolved company, section 3) with its own scored
attributes. -/
structure Candidate where
  companyKey : String
  companyAttrs : Attrs
  contact : Option (String × Attrs)
  posting : Option (String × Attrs)

/-- The ids a candidate resolves to; `none` marks a part held as AMBIGUOUS
(surfaced for manual review rather than merged or duplicated). -/
structure ResolvedIds where
  companyId : Option Nat
  contactId : Option Nat
  postingId : Option Nat
  leadId : Option Nat
deriving DecidableEq

/-- The section 4.3 batch report: how many entity resolutions created a row,
merged into an existing one, or were held as ambiguous. -/
structure BatchResult where
  created : Nat
  merged : Nat
  ambiguous : Nat
deriving DecidableEq

/-- The batch-report contribution of one resolution status. -/
def countStatus (s : MatchStatus) : BatchResult :=
  match s with
  | .EXACT => { created := 0, merged := 1, ambiguous := 0 }
  | .FUZZY => { created := 0, merged := 1, ambiguous := 0 }
  | .AMBIGUOUS => { created := 0, merged := 0, ambiguous := 1 }
  | .NEW => { created := 1, merged := 0, ambiguous := 0 }

/-- Pointwise sum of batch reports. -/
def addBR (a b : BatchResult) : BatchResult :=
  { created := a.created + b.created, merged := a.merged + b.merged,
    ambiguous := a.ambiguous + b.ambiguous }

/-- The coarse-filter scope of a company: its city/state (section 4.2,
step 2). -/
def companyScope (a : Attrs) : String := a.city.getD ""

/-- A contact or posting identity key scoped to its resolved company id. -/
def scopedKey (cid : Nat) (k : String) : String := toString cid ++ (":") ++ k

/-- The coarse-filter scope of a contact or posting: its owning company id
(section 4.2, step 2: same company_id). -/
def idScope (cid : Nat) : String := toString cid

/-- The Lead identity key: company id plus job-posting id when a posting
exists, else company id alone (section 3). -/
def leadKeyOf (cid : Nat) (pid : Option Nat) : String :=
  match pid with
  | some p => toString cid ++ ("#") ++ toString p
  | none => toString cid ++ ("#")

/-- Resolve the optional contact of a candidate, scoped to the resolved
company. -/
def resolveContactPart (st : Store) (cid : Nat) :
    Option (String × Attrs) → Store × Option Nat × BatchResult
  | none => (st, none, { created := 0, merged := 0, ambiguous := 0 })
  | some ka =>
    let r := resolveEntity st.contacts (idScope cid) (scopedKey cid ka.1) ka.2 st.nextId
    ({ st with contacts := r.1, nextId := r.2.2.2 }, r.2.1, countStatus r.2.2.1)

/-- Resolve the optional job-posting of a candidate, scoped to the resolved
company. -/
def resolvePostingPart (st : Store) (cid : Nat) :
    Option (String × Attrs) → Store × Option Nat × BatchResult
  | none => (st, none, { created := 0, merged := 0, ambiguous := 0 })
  | some ka =>
    let r := resolveEntity st.postings (idScope cid) (scopedKey cid ka.1) ka.2 st.nextId
    ({ st with postings := r.1, nextId := r.2.2.2 }, r.2.1, countStatus r.2.2.1)

/-- Build the Lead row for the resolved ids: a duplicate Lead identity key is
treated as an update to the existing Lead, not a new row (section 4.3). A
candidate whose posting was held as ambiguous holds its Lead as well rather
than building it under the wrong key. -/
def resolveLeadPart (st : Store) (cid : Nat) (hadPosting : Bool) (pid : Option Nat) :
    Store × Option Nat :=
  if hadPosting ∧ pid = none then (st, none)
  else
    let r := upsertTbl st.leads (leadKeyOf cid pid) st.nextId
    ({ st with leads := r.1, nextId := r.2.2 }, some r.2.1)

/-- Modelled from the spec: resolution of one candidate (section 4.3) —
company first through the EntityMatcher, then contact and posting scoped to
the resolved company, then the Lead built from the resulting ids via the Lead
identity key. A candidate whose company is held as AMBIGUOUS is held whole:
nothing about it is stored. The backend IngestionResolver implementation is
not part of the visible source. -/
def resolveCandidate (st : Store) (c : Candidate) : Store × ResolvedIds × BatchResult :=
  let a := resolveEntity st.companies (companyScope c.companyAttrs) c.companyKey
    c.companyAttrs st.nextId
  let st1 : Store := { st with companies := a.1, nextId := a.2.2.2 }
  match a.2.1 with
  | none =>
    (st1, { companyId := none, contactId := none, postingId := none, leadId := none },
      countStatus a.2.2.1)
  | some cid =>
    let b := resolveContactPart st1 cid c.contact
    let d := resolvePostingPart b.1 cid c.posting
    let e := resolveLeadPart d.1 cid c.posting.isSome d.2.1
    (e.1,
      { companyId := some cid, contactId := b.2.1, postingId := d.2.1, leadId := e.2 },
      addBR (countStatus a.2.2.1) (addBR b.2.2 d.2.2))

/-- Modelled from the spec: `IngestionResolver.resolveBatch` (section 4.3)
processes a batch as a unit, candidate by candidate, threading the store; it
returns the final store, the resolved ids of every candidate, and the
created/merged/ambiguous report. The backend IngestionResolver implementation
is not part of the visible source. -/
def IngestionResolver.resolveBatch (st : Store) (batch : List Candidate) :
    Store × List ResolvedIds × BatchResult :=
  match batch with
  | [] => (st, [], { created := 0, merged := 0, ambiguous := 0 })
  | c :: cs =>
    let a := resolveCandidate st c
    let b := IngestionResolver.resolveBatch a.1 cs
    (b.1, a.2.1 :: b.2.1, addBR a.2.2 b.2.2)

/-- A candidate's resolution held nothing for manual review: the company
resolved, the contact and posting resolved whenever present, and the Lead was
built. -/
def Unheld (c : Candidate) (r : ResolvedIds) : Prop :=
  r.companyId.isSome ∧ (c.contact.isSome → r.contactId.isSome) ∧
    (c.posting.isSome → r.postingId.isSome) ∧ r.leadId.isSome

instance (c : Candidate) (r : ResolvedIds) : Decidable (Unheld c r) := by
  unfold Unheld
  infer_instance

/-- Relates an optional scoped candidate part to an optional resolved id:
both absent, or both present and related. -/
def keyRel (P : String → Nat → Prop) : Option (String × Attrs) → Option Nat → Prop
  | none, none => True
  | some ka, some i => P ka.1 i
  | _, _ => False

/-- A candidate is settled in a store: every identity key it gives rise to is
recorded in the corresponding index with the resolved id, so a re-run
resolves it EXACT everywhere. Reads only the indexes, never the rows. -/
def SettledIn (st : Store) (c : Candidate) (r : ResolvedIds) : Prop :=
  ∃ cid, r.companyId = some cid ∧
    lookupTbl st.companies.index c.companyKey = some cid ∧
    keyRel (fun k i => lookupTbl st.contacts.index (scopedKey cid k) = some i)
      c.contact r.contactId ∧
    keyRel (fun k i => lookupTbl st.postings.index (scopedKey cid k) = some i)
      c.posting r.postingId ∧
    ∃ lid, r.leadId = some lid ∧ lookupTbl st.leads (leadKeyOf cid r.postingId) = some lid

/-- Index extension order: every key lookup that succeeds in the first
store's indexes succeeds with the same id in the second's. Resolution only
ever records fresh keys, so stores grow along this order. -/
def IndexLe (s t : Store) : Prop :=
  (∀ k v, lookupTbl s.companies.index k = some v → lookupTbl t.companies.index k = some v) ∧
  (∀ k v, lookupTbl s.contacts.index k = some v → lookupTbl t.contacts.index k = some v) ∧
  (∀ k v, lookupTbl s.postings.index k = some v → lookupTbl t.postings.index k = some v) ∧
  (∀ k v, lookupTbl s.leads k = some v → lookupTbl t.leads k = some v)

/-- The two stores have identical indexes and Lead table. -/
def IdxEq (s t : Store) : Prop :=
  s.companies.index = t.companies.index ∧ s.contacts.index = t.contacts.index ∧
    s.postings.index = t.postings.index ∧ s.leads = t.leads

/-- The two stores have equally many rows in every table. -/
def RowsLen (s t : Store) : Prop :=
  s.companies.rows.length = t.companies.rows.length ∧
    s.contacts.rows.length = t.contacts.rows.length ∧
    s.postings.rows.length = t.postings.rows.length

/-- No additional rows: identical identity-key indexes and Lead table, and
equally many rows in every entity table. -/
def NoNewRows (s t : Store) : Prop := IdxEq s t ∧ RowsLen s t

/-- Modelled from the spec: the deterministic candidate selection of the
RouteOptimizer — the candidate of least cost, and among equal costs the one
listed first (section 4.6, deterministic tie-break). The backend
RouteOptimizer implementation is not part of the visible source. -/
def chooseNext {α : Type} [LinearOrder α] (cost : Nat → α) : List Nat → Option Nat
  | [] => none
  | x :: xs =>
    match chooseNext cost xs with
    | none => some x
    | some y => if cost x ≤ cost y then some x else some y

/-- Modelled from the spec: the nearest-neighbor construction (section 4.6,
step 1) — from the current stop, repeatedly visit the nearest unvisited
point, preferring the lower index on ties. Fuel bounds the recursion; it is
called with fuel equal to the number of unvisited points. -/
def nnFrom {α : Type} [LinearOrder α] (D : Nat → Nat → α) :
    Nat → Nat → List Nat → List Nat
  | 0, _, _ => []
  | fuel + 1, cur, remaining =>
    match chooseNext (fun j => D cur j) remaining with
    | none => []
    | some c => c :: nnFrom D fuel c (remaining.erase c)

/-- Total travel cost of an open path through the listed indices. -/
def pathCost {α : Type} [LinearOrderedAddCommMonoid α] (D : Nat → Nat → α) :
    List Nat → α
  | a :: b :: rest => D a b + pathCost D (b :: rest)
  | _ => 0

/-- The nearest-neighbor tour of the `n` matrix indices starting at `s`. -/
def nnTour {α : Type} [LinearOrder α] (D : Nat → Nat → α) (n s : Nat) : List Nat :=
  s :: nnFrom D (n - 1) s ((List.range n).erase s)

/-- Reversal of the tour segment between positions `i` and `j` (inclusive):
the 2-opt move. -/
def reverseSeg (t : List Nat) (i j : Nat) : List Nat :=
  t.take i ++ ((t.drop i).take (j + 1 - i)).reverse ++ t.drop (j + 1)

/-- All candidate 2-opt reversals of a tour (identity for degenerate index
pairs). -/
def candidateTours (t : List Nat) : List (List Nat) :=
  (List.range t.length).flatMap fun i =>
    (List.range t.length).map fun j => if i < j then reverseSeg t i j else t

/-- One 2-opt improvement step: the first segment reversal that strictly
reduces the total path cost, if any. -/
def twoOptStep {α : Type} [LinearOrderedAddCommMonoid α] (D : Nat → Nat → α)
    (t : List Nat) : Option (List Nat) :=
  (candidateTours t).find? fun u => decide (pathCost D u < pathCost D t)

/-- Modelled from the spec: 2-opt improvement passes until no swap improves
the tour or the iteration budget is exhausted (section 4.6, step 2). -/
def twoOptLoop {α : Type} [LinearOrderedAddCommMonoid α] (D : Nat → Nat → α) :
    Nat → List Nat → List Nat
  | 0, t => t
  | b + 1, t =>
    match twoOptStep D t with
    | none => t
    | some u => twoOptLoop D b u

/-- Modelled from the spec: `RouteOptimizer.optimize(matrix, startIndex?)`
(section 4.6) — nearest-neighbor construction from the start index (an
out-of-range start falls back to index 0; when absent, the start minimizing
the total nearest-neighbor distance is chosen, lower index on ties), then
2-opt improvement under an iteration budget. The matrix is the cost function
`D` over the `n` indices of the points with valid geocoding; unresolvable
points are excluded before the matrix is built. The backend RouteOptimizer
implementation is not part of the visible source. `startOf` selects the
starting index. -/
def RouteOptimizer.startOf {α : Type} [LinearOrderedAddCommMonoid α]
    (D : Nat → Nat → α) (n : Nat) : Option Nat → Nat
  | some s0 => if s0 < n then s0 else 0
  | none => (chooseNext (fun i => pathCost D (nnTour D n i)) (List.range n)).getD 0

/-- The optimizer proper: nearest-neighbor tour from the selected start, then
the bounded 2-opt improvement loop. -/
def RouteOptimizer.optimize {α : Type} [LinearOrderedAddCommMonoid α]
    (D : Nat → Nat → α) (n : Nat) (startIndex : Option Nat) : List Nat :=
  if n = 0 then []
  else twoOptLoop D (n * n) (nnTour D n (RouteOptimizer.startOf D n startIndex))

/-- A geocoded point: latitude and longitude in radians. -/
structure GeoPoint where
  lat : ℝ
  lon : ℝ

/-- Mean Earth radius in miles (the app reports distances in miles). -/
noncomputable def earthRadiusMiles : ℝ := 3958.8

/-- Modelled from the spec: great-circle (haversine) distance between two
geocoded points (section 4.5); the backend DistanceMatrixBuilder
implementation is not part of the visible source. -/
noncomputable def haversine (p q : GeoPoint) : ℝ :=
  2 * earthRadiusMiles *
    Real.arcsin (Real.sqrt (Real.sin ((q.lat - p.lat) / 2) ^ 2 +
      Real.cos p.lat * Real.cos q.lat * Real.sin ((q.lon - p.lon) / 2) ^ 2))

/-- Modelled from the spec: `DistanceMatrixBuilder.build(points[])` returns
the N by N matrix of pairwise haversine distances (section 4.5). The backend
DistanceMatrixBuilder implementation is not part of the visible source. -/
noncomputable def DistanceMatrixBuilder.build (points : List GeoPoint) : List (List ℝ) :=
  points.map fun p => points.map fun q => haversine p q

/-- Concrete distance function used by witnesses. -/
def exD : Nat → Nat → ℤ := fun i j => (i : ℤ) + j

/-- A second, pointwise-equal distance function used by the determinism
witness. -/
def exD2 : Nat → Nat → ℤ := fun i j => (j : ℤ) + i

/-- Constant cost function used by the tie-break witness. -/
def exCost : Nat → ℤ := fun _ => 0

/-- Concrete manual-entry form used by witnesses: required fields filled. -/
def formEx : ManualEntryForm :=
  { companyName := jstr ("TechCorp")
    companyWebsite := jstr ("https://techcorp.com")
    jobTitle := jstr ("Sales Manager")
    jobDescription := []
    location := jstr ("San Francisco CA")
    contactName := jstr ("John Smith")
    contactEmail := []
    contactPhone := []
    notes := [] }

/-- Empty store used by the idempotence witness. -/
def wStore : Store :=
  { companies := { index := [], rows := [] }
    contacts := { index := [], rows := [] }
    postings := { index := [], rows := [] }
    leads := []
    nextId := 1 }

/-- Witness batch: the first candidate creates company, contact, posting and
lead; the second re-scrapes the same posting for the same company; the third
has a different identity key but fuzzy-matches the stored company. -/
def wBatch : List Candidate :=
  [{ companyKey := "d:acme.com"
     companyAttrs :=
       { nameTokens := ["acme"], domain := some ("acme.com"), phone := none,
         city := some ("sf") }
     contact := some ("e:js@acme.com",
       { nameTokens := ["john", "smith"], domain := none, phone := none, city := none })
     posting := some ("indeed:123",
       { nameTokens := ["sales", "manager"], domain := none, phone := none, city := none }) },
   { companyKey := "d:acme.com"
     companyAttrs :=
       { nameTokens := ["acme"], domain := some ("acme.com"), phone := none,
         city := some ("sf") }
     contact := none
     posting := some ("indeed:123",
       { nameTokens := ["sales", "manager"], domain := none, phone := none, city := none }) },
   { companyKey := "z:acme-inc"
     companyAttrs :=
       { nameTokens := ["acme"], domain := some ("acme.com"), phone := none,
         city := some ("sf") }
     contact := none
     posting := none }]

/-- Counterexample store: two stored companies in the same city whose names
both coincide with the first candidate's name. -/
def cexStore : Store :=
  { companies :=
      { index := [("k1", 1), ("k2", 2)]
        rows :=
          [{ id := 1, scope := "sf"
             attrs := { nameTokens := ["acme"], domain := none, phone := none,
                        city := some ("sf") } },
           { id := 2, scope := "sf"
             attrs := { nameTokens := ["acme"], domain := none, phone := none,
                        city := some ("sf") } }] }
    contacts := { index := [], rows := [] }
    postings := { index := [], rows := [] }
    leads := []
    nextId := 3 }

/-- Counterexample batch: the first candidate ties both stored companies at
the top score (AMBIGUOUS, held); the second shares its identity key but has
an unrelated name (NEW, claiming the key). -/
def cexBatch : List Candidate :=
  [{ companyKey := "d:acme.com"
     companyAttrs :=
       { nameTokens := ["acme"], domain := some ("acme.com"), phone := none,
         city := some ("sf") }
     contact := none
     posting := none },
   { companyKey := "d:acme.com"
     companyAttrs :=
       { nameTokens := ["zeta"], domain := some ("acme.com"), phone := none,
         city := some ("sf") }
     contact := none
     posting := none }]

/-- C10: `toggleLead` flips the membership of exactly the toggled id, leaves
every other id unchanged, and applied twice with the same id restores the
original selection. -/
theorem toggleLead_toggles (s : Finset ℕ) (id : ℕ) :
    (id ∈ toggleLead s id ↔ id ∉ s) ∧
    (∀ j, j ≠ id → (j ∈ toggleLead s id ↔ j ∈ s)) ∧
    toggleLead (toggleLead s id) id = s := by
  by_cases h : id ∈ s
  · refine ⟨by simp [toggleLead, h], fun j hj => by simp [toggleLead, h, hj], ?_⟩
    have h2 : id ∉ s.erase id := Finset.not_mem_erase id s
    simp [toggleLead, h, h2, Finset.insert_erase h]
  · refine ⟨by simp [toggleLead, h], fun j hj => by simp [toggleLead, h, hj], ?_⟩
    have h2 : id ∈ insert id s := Finset.mem_insert_self id s
    simp [toggleLead, h, h2, Finset.erase_insert h]

/-- Witness for C10 at a concrete selection and id. -/
theorem toggleLead_toggles_witness :
    (2 ∈ toggleLead ({1, 2} : Finset ℕ) 2 ↔ 2 ∉ ({1, 2} : Finset ℕ)) ∧
    (1 ∈ toggleLead ({1, 2} : Finset ℕ) 2 ↔ 1 ∈ ({1, 2} : Finset ℕ)) ∧
    toggleLead (toggleLead ({1, 2} : Finset ℕ) 2) 2 = ({1, 2} : Finset ℕ) :=
  ⟨(toggleLead_toggles {1, 2} 2).1,
   (toggleLead_toggles {1, 2} 2).2.1 1 (by decide),
   (toggleLead_toggles {1, 2} 2).2.2⟩

/-- C7: a manual-entry submission with an empty company name or empty job
title is rejected before any import request is issued, and a submission with
both fields non-empty sends exactly the nine form fields to the import
endpoint. -/
theorem handleSubmit_validates (f : ManualEntryForm) :
    (f.companyName = [] ∨ f.jobTitle = [] → handleSubmit f = .rejected) ∧
    (f.companyName ≠ [] → f.jobTitle ≠ [] →
      handleSubmit f = .submitted
        { company_name := f.companyName
          company_website := f.companyWebsite
          job_title := f.jobTitle
          job_description := f.jobDescription
          location := f.location
          contact_name := f.contactName
          contact_email := f.contactEmail
          contact_phone := f.contactPhone
          notes := f.notes }) := by
  constructor
  · intro h
    simp [handleSubmit, h]
  · intro h1 h2
    simp [handleSubmit, h1, h2]

/-- Witness for C7: a filled form is submitted with its own field values, and
a form with an empty job title is rejected. -/
theorem handleSubmit_validates_witness :
    handleSubmit formEx = .submitted
      { company_name := jstr ("TechCorp")
        company_website := jstr ("https://techcorp.com")
        job_title := jstr ("Sales Manager")
        job_description := []
        location := jstr ("San Francisco CA")
        contact_name := jstr ("John Smith")
        contact_email := []
        contact_phone := []
        notes := [] } ∧
    handleSubmit { formEx with jobTitle := [] } = .rejected :=
  ⟨(handleSubmit_validates formEx).2 (by decide) (by decide),
   (handleSubmit_validates { formEx with jobTitle := [] }).1 (Or.inr rfl)⟩

/-- C8: the route-planning client sends exactly the fields of the external
contract — the given lead ids, the given optional start location (absent when
unspecified), and the optimize flag, which is true when the caller does not
specify it; the lead-list page sends the selected ids with no start location
and optimize true. -/
theorem planRoute_request_contract (leadIds : List Nat)
    (startLocation : Option (List Char)) (opt : Bool) :
    (routesApi.planRoute leadIds startLocation opt).lead_ids = leadIds ∧
    (routesApi.planRoute leadIds startLocation opt).start_location = startLocation ∧
    (routesApi.planRoute leadIds startLocation opt).optimize = opt ∧
    routesApi.planRouteDefault leadIds = routesApi.planRoute leadIds none true ∧
    (leadIds ≠ [] →
      LeadsList.planRoute leadIds =
        some { lead_ids := leadIds, start_location := none, optimize := true }) := by
  refine ⟨rfl, rfl, rfl, rfl, fun h => ?_⟩
  simp [LeadsList.planRoute, routesApi.planRouteDefault, routesApi.planRoute,
    List.length_eq_zero, h]

/-- Witness for C8 at a concrete selection. -/
theorem planRoute_request_contract_witness :
    LeadsList.planRoute [3, 5] =
      some { lead_ids := [3, 5], start_location := none, optimize := true } :=
  (planRoute_request_contract [3, 5] none true).2.2.2.2 (by decide)

/-- C3: resolving a candidate against a stored entity never changes a field
that was already populated — for every status (merge-fill happens only on
EXACT and FUZZY, and even then fills only empty fields), and any field the
resolution does change was empty on the stored entity. -/
theorem applyResolution_preserves_populated (status : MatchStatus)
    (stored candidate : Entity) (f : EField) :
    (∀ v, stored f = some v → EntityMatcher.applyResolution status stored candidate f = some v) ∧
    (EntityMatcher.applyResolution status stored candidate f ≠ stored f → stored f = none) := by
  have hm : (∀ v, stored f = some v → mergeFill stored candidate f = some v) ∧
      (mergeFill stored candidate f ≠ stored f → stored f = none) := by
    constructor
    · intro v hv
      simp [mergeFill, hv]
    · intro h
      cases hf : stored f with
      | none => rfl
      | some v => simp [mergeFill, hf] at h
  cases status
  · exact hm
  · exact hm
  · exact ⟨fun v hv => hv, fun h => absurd rfl h⟩
  · exact ⟨fun v hv => hv, fun h => absurd rfl h⟩

/-- Witness for C3: an EXACT resolution keeps the populated name even though
the candidate carries a different one, and the changed domain field was empty
before. -/
theorem applyResolution_preserves_populated_witness :
    EntityMatcher.applyResolution .EXACT storedEx candEx .name = some ("Acme") ∧
    storedEx .domain = none :=
  ⟨(applyResolution_preserves_populated .EXACT storedEx candEx .name).1 ("Acme") rfl, rfl⟩

/-- A character's uppercase test in terms of its code point. -/
theorem isUpper_iff_toNat (d : Char) : d.isUpper = true ↔ 65 ≤ d.toNat ∧ d.toNat ≤ 90 := by
  simp [Char.isUpper, UInt32.le_def, BitVec.le_def, Char.toNat, UInt32.toNat]

/-- ASCII lowercasing never produces an uppercase letter. -/
theorem toLower_not_upper (c : Char) : (Char.toLower c).isUpper = false := by
  show (if c.toNat ≥ 65 ∧ c.toNat ≤ 90 then Char.ofNat (c.toNat + 32) else c).isUpper = false
  by_cases h : c.toNat ≥ 65 ∧ c.toNat ≤ 90
  · rw [if_pos h]
    obtain ⟨h1, h2⟩ := h
    have hv : (c.toNat + 32).isValidChar := Or.inl (by omega)
    have ht : (Char.ofNat (c.toNat + 32)).toNat = c.toNat + 32 := by
      rw [Char.ofNat, dif_pos hv]
      rfl
    rw [Bool.eq_false_iff]
    intro hu
    rw [isUpper_iff_toNat, ht] at hu
    omega
  · rw [if_neg h]
    rw [Bool.eq_false_iff]
    intro hu
    exact h ((isUpper_iff_toNat c).mp hu)

/-- A split never yields an empty list of segments. -/
theorem splitOnChar_ne_nil (sep : Char) (l : List Char) : splitOnChar sep l ≠ [] := by
  induction l with
  | nil => simp [splitOnChar]
  | cons c cs ih =>
    rw [splitOnChar]
    cases hr : splitOnChar sep cs with
    | nil => simp
    | cons w ws =>
      by_cases hc : c = sep <;> simp [hc]

/-- The separator does not occur in the first segment of a split. -/
theorem sep_not_mem_head_splitOnChar (sep : Char) (l : List Char) :
    sep ∉ (splitOnChar sep l).headD [] := by
  induction l with
  | nil => simp [splitOnChar]
  | cons c cs ih =>
    rw [splitOnChar]
    cases hr : splitOnChar sep cs with
    | nil => simp
    | cons w ws =>
      by_cases hc : c = sep
      · simp [hc]
      · rw [hr] at ih
        simp only [if_neg hc, List.headD_cons, List.mem_cons] at ih ⊢
        rintro (rfl | hm)
        · exact hc rfl
        · exact ih hm

/-- Membership in the fuel-driven `www.`-stripper comes from the input. -/
theorem mem_of_mem_dropWwwFuel (n : Nat) (l : List Char) (c : Char)
    (h : c ∈ dropWwwFuel n l) : c ∈ l := by
  induction n generalizing l with
  | zero => exact h
  | succ n ih =>
    rw [dropWwwFuel] at h
    by_cases hp : List.isPrefixOf (jstr ("www.")) l = true
    · rw [if_pos hp] at h
      exact List.drop_subset 4 l (ih _ h)
    · rwa [if_neg hp] at h

/-- With enough fuel, the result of the `www.`-stripper has no leading
`www.`. -/
theorem dropWwwFuel_no_www (n : Nat) (l : List Char) (h : l.length ≤ n) :
    List.isPrefixOf (jstr ("www.")) (dropWwwFuel n l) = false := by
  induction n generalizing l with
  | zero =>
    have : l = [] := List.eq_nil_of_length_eq_zero (Nat.le_zero.mp h)
    subst this
    decide
  | succ n ih =>
    rw [dropWwwFuel]
    by_cases hp : List.isPrefixOf (jstr ("www.")) l = true
    · rw [if_pos hp]
      have hpre : jstr ("www.") <+: l := List.isPrefixOf_iff_prefix.mp hp
      have hlen : 4 ≤ l.length := by
        have := hpre.length_le
        simpa using this
      refine ih (List.drop 4 l) ?_
      rw [List.length_drop]
      omega
    · rw [if_neg hp]
      exact Bool.eq_false_iff.mpr hp

/-- Membership after the scheme-stripper comes from the input. -/
theorem mem_of_mem_dropScheme (l : List Char) (c : Char) (h : c ∈ dropScheme l) : c ∈ l := by
  rw [dropScheme] at h
  by_cases h1 : List.isPrefixOf (jstr ("http://")) l = true
  · rw [if_pos h1] at h
    exact List.drop_subset 7 l h
  · rw [if_neg h1] at h
    by_cases h2 : List.isPrefixOf (jstr ("https://")) l = true
    · rw [if_pos h2] at h
      exact List.drop_subset 8 l h
    · rwa [if_neg h2] at h

/-- Membership after trimming comes from the input. -/
theorem mem_of_mem_trimChars (l : List Char) (c : Char) (h : c ∈ trimChars l) : c ∈ l := by
  rw [trimChars] at h
  rw [List.mem_reverse] at h
  have h2 := (List.dropWhile_sublist Char.isWhitespace).subset h
  rw [List.mem_reverse] at h2
  exact (List.dropWhile_sublist Char.isWhitespace).subset h2

/-- C6 (corrected): the Normalizer's website/domain normalization (modelled
from the spec) produces a path-free, `www.`-free, lowercase registrable
domain; but the domain used when building suggested contact emails is only
the raw website with the scheme occurrences removed and truncated at the
first slash — every suggestion ends in that domain, which keeps its case and
any `www.` prefix. -/
theorem domain_normalization_amended :
    (∀ raw : List Char,
      '/' ∉ normalizeDomain raw ∧
      List.isPrefixOf (jstr ("www.")) (normalizeDomain raw) = false ∧
      ∀ c ∈ normalizeDomain raw, c.isUpper = false) ∧
    (∀ name web es, suggestEmails name web = some es →
      ∀ e ∈ es, ∃ loc, e = loc ++ '@' :: jsDomain web) ∧
    (∀ web : List Char, '/' ∉ jsDomain web) := by
  refine ⟨fun raw => ⟨?_, ?_, ?_⟩, ?_, ?_⟩
  · intro hmem
    have h1 := mem_of_mem_dropWwwFuel _ _ _ hmem
    have h2 := List.mem_takeWhile_imp h1
    simp at h2
  · exact dropWwwFuel_no_www _ _ le_rfl
  · intro c hmem
    have h1 := mem_of_mem_dropWwwFuel _ _ _ hmem
    have h2 := (List.takeWhile_prefix (fun c => decide (c ≠ '/'))).sublist.subset h1
    have h3 := mem_of_mem_dropScheme _ _ h2
    rw [toLowerL, List.mem_map] at h3
    obtain ⟨d, _, rfl⟩ := h3
    exact toLower_not_upper d
  · intro name web es h e he
    rw [suggestEmails] at h
    by_cases hg1 : name = [] ∨ web = []
    · rw [if_pos hg1] at h
      exact absurd h (by simp)
    · rw [if_neg hg1] at h
      by_cases hg2 : (splitOnChar ' ' name).length < 2
      · rw [if_pos hg2] at h
        exact absurd h (by simp)
      · rw [if_neg hg2] at h
        by_cases hg3 : (splitOnChar ' ' name).headD [] = [] ∨
            (splitOnChar ' ' name).getLastD [] = []
        · rw [if_pos hg3] at h
          exact absurd h (by simp)
        · rw [if_neg hg3] at h
          have hes := Option.some.inj h
          subst hes
          simp only [List.mem_cons, List.not_mem_nil, or_false] at he
          rcases he with rfl | rfl | rfl | rfl | rfl | rfl <;>
            exact ⟨_, rfl⟩
  · intro web
    exact sep_not_mem_head_splitOnChar '/' _

/-- Witness for C6 at a concrete website: the normalized domain of the
websites drops scheme, `www.` and path; every suggested email ends in the
code's domain. -/
theorem domain_normalization_amended_witness :
    '/' ∉ normalizeDomain (jstr ("https://www.Example.com/about")) ∧
    (∃ loc, jstr ("john.smith@www.Example.com") =
      loc ++ '@' :: jsDomain (jstr ("https://www.Example.com/about"))) := by
  constructor
  · exact (domain_normalization_amended.1 (jstr ("https://www.Example.com/about"))).1
  · refine domain_normalization_amended.2.1 (jstr ("John Smith"))
      (jstr ("https://www.Example.com/about"))
      [jstr ("john.smith@www.Example.com"), jstr ("johnsmith@www.Example.com"),
       jstr ("jsmith@www.Example.com"), jstr ("john@www.Example.com"),
       jstr ("johns@www.Example.com"), jstr ("j.smith@www.Example.com")]
      (by decide) _ (by decide)

/-- Counterexample for C6 as stated: for the website
`https://www.Example.com/about` the spec-modelled normalizer yields
`example.com`, but the suggested emails use `www.Example.com` — the scheme
and path are gone, yet the `www.` prefix and the capital letter remain. -/
theorem suggest_domain_not_registrable_cex :
    normalizeDomain (jstr ("https://www.Example.com/about")) = jstr ("example.com") ∧
    suggestEmails (jstr ("John Smith")) (jstr ("https://www.Example.com/about")) =
      some [jstr ("john.smith@www.Example.com"), jstr ("johnsmith@www.Example.com"),
            jstr ("jsmith@www.Example.com"), jstr ("john@www.Example.com"),
            jstr ("johns@www.Example.com"), jstr ("j.smith@www.Example.com")] ∧
    jsDomain (jstr ("https://www.Example.com/about")) ≠
      normalizeDomain (jstr ("https://www.Example.com/about")) := by
  refine ⟨by decide, by decide, by decide⟩

/-- C9 (corrected): with a non-empty name and website, at least two
space-split segments, and non-empty first and last segments, `suggestEmails`
returns exactly the six patterns built from the lowercased first and last
segments over the scheme-stripped, slash-truncated domain; in every other
case — including a name whose space-split has an empty first or last segment,
where the JavaScript code throws while indexing and the catch swallows the
result — it returns no suggestions. -/
theorem suggestEmails_amended :
    (∀ name web : List Char, name ≠ [] → web ≠ [] →
      2 ≤ (splitOnChar ' ' name).length →
      (splitOnChar ' ' name).headD [] ≠ [] →
      (splitOnChar ' ' name).getLastD [] ≠ [] →
      suggestEmails name web =
        some
          [emailOf (toLowerL ((splitOnChar ' ' name).headD []) ++
             '.' :: toLowerL ((splitOnChar ' ' name).getLastD [])) (jsDomain web),
           emailOf (toLowerL ((splitOnChar ' ' name).headD []) ++
             toLowerL ((splitOnChar ' ' name).getLastD [])) (jsDomain web),
           emailOf (toLowerL (((splitOnChar ' ' name).headD []).take 1) ++
             toLowerL ((splitOnChar ' ' name).getLastD [])) (jsDomain web),
           emailOf (toLowerL ((splitOnChar ' ' name).headD [])) (jsDomain web),
           emailOf (toLowerL ((splitOnChar ' ' name).headD []) ++
             toLowerL (((splitOnChar ' ' name).getLastD []).take 1)) (jsDomain web),
           emailOf (toLowerL (((splitOnChar ' ' name).headD []).take 1) ++
             '.' :: toLowerL ((splitOnChar ' ' name).getLastD [])) (jsDomain web)]) ∧
    (∀ name web : List Char,
      name = [] ∨ web = [] ∨ (splitOnChar ' ' name).length < 2 ∨
        (splitOnChar ' ' name).headD [] = [] ∨ (splitOnChar ' ' name).getLastD [] = [] →
      suggestEmails name web = none) := by
  constructor
  · intro name web hn hw h2 hf hl
    simp only [suggestEmails]
    rw [if_neg (not_or.mpr ⟨hn, hw⟩), if_neg (Nat.not_lt.mpr h2), if_neg (not_or.mpr ⟨hf, hl⟩)]
  · intro name web h
    simp only [suggestEmails]
    split_ifs with hg1 hg2 hg3
    · rfl
    · rfl
    · rfl
    · rcases h with h | h | h | h | h
      · exact absurd (Or.inl h) hg1
      · exact absurd (Or.inr h) hg1
      · exact absurd h hg2
      · exact absurd (Or.inl h) hg3
      · exact absurd (Or.inr h) hg3

/-- Witness for C9 at a concrete name and website: the six patterns, and no
suggestions for a single-token name. -/
theorem suggestEmails_amended_witness :
    suggestEmails (jstr ("John Smith")) (jstr ("Acme.com")) =
      some [jstr ("john.smith@Acme.com"), jstr ("johnsmith@Acme.com"),
            jstr ("jsmith@Acme.com"), jstr ("john@Acme.com"),
            jstr ("johns@Acme.com"), jstr ("j.smith@Acme.com")] ∧
    suggestEmails (jstr ("Madonna")) (jstr ("acme.com")) = none := by
  constructor
  · have h := suggestEmails_amended.1 (jstr ("John Smith")) (jstr ("Acme.com"))
      (by decide) (by decide) (by decide) (by decide) (by decide)
    rw [h]
    decide
  · exact suggestEmails_amended.2 (jstr ("Madonna")) (jstr ("acme.com"))
      (Or.inr (Or.inr (Or.inl (by decide))))

/-- Counterexample for C9 as stated: the name `John Smith ` (trailing space)
has exactly two whitespace-separated tokens, and the website is non-empty,
yet the code produces no suggestions — the space-split keeps the trailing
empty segment as the last name, and indexing into it throws. -/
theorem suggestEmails_trailing_space_cex :
    ((splitOnChar ' ' (jstr ("John Smith "))).filter (fun t => !t.isEmpty)).length = 2 ∧
    suggestEmails (jstr ("John Smith ")) (jstr ("acme.com")) = none := by
  refine ⟨by decide, by decide⟩

/-- `chooseNext` returns `none` exactly on the empty candidate list. -/
theorem chooseNext_eq_none_iff {α : Type} [LinearOrder α] (cost : Nat → α)
    (l : List Nat) : chooseNext cost l = none ↔ l = [] := by
  cases l with
  | nil => simp [chooseNext]
  | cons x xs =>
    simp only [chooseNext]
    constructor
    · intro h
      cases hr : chooseNext cost xs with
      | none => rw [hr] at h; exact absurd h (by simp)
      | some y =>
        rw [hr] at h
        have h2 : (if cost x ≤ cost y then some x else some y) = none := h
        by_cases hc : cost x ≤ cost y
        · rw [if_pos hc] at h2; exact absurd h2 (by simp)
        · rw [if_neg hc] at h2; exact absurd h2 (by simp)
    · intro h
      exact absurd h (by simp)

/-- The candidate chosen by `chooseNext` is one of the candidates. -/
theorem chooseNext_mem {α : Type} [LinearOrder α] (cost : Nat → α) :
    ∀ (l : List Nat) (c : Nat), chooseNext cost l = some c → c ∈ l := by
  intro l
  induction l with
  | nil => intro c h; simp [chooseNext] at h
  | cons x xs ih =>
    intro c h
    rw [chooseNext] at h
    cases hr : chooseNext cost xs with
    | none =>
      rw [hr] at h
      obtain rfl := Option.some.inj h
      exact List.mem_cons_self x xs
    | some y =>
      rw [hr] at h
      have h2 : (if cost x ≤ cost y then some x else some y) = some c := h
      by_cases hc : cost x ≤ cost y
      · rw [if_pos hc] at h2
        obtain rfl := Option.some.inj h2
        exact List.mem_cons_self x xs
      · rw [if_neg hc] at h2
        obtain rfl := Option.some.inj h2
        exact List.mem_cons_of_mem x (ih _ hr)

/-- Deterministic tie-break of `chooseNext` on a strictly increasing
candidate list: the chosen candidate has strictly smaller cost than every
other candidate, or equal cost and a lower-or-equal index. -/
theorem chooseNext_least {α : Type} [LinearOrder α] (cost : Nat → α) :
    ∀ (l : List Nat) (c : Nat), l.Pairwise (· < ·) → chooseNext cost l = some c →
      ∀ j ∈ l, cost c < cost j ∨ (cost c = cost j ∧ c ≤ j) := by
  intro l
  induction l with
  | nil => intro c _ h; simp [chooseNext] at h
  | cons x xs ih =>
    intro c hp h j hj
    rw [List.pairwise_cons] at hp
    obtain ⟨hx, hxs⟩ := hp
    rw [chooseNext] at h
    cases hr : chooseNext cost xs with
    | none =>
      rw [hr] at h
      have hxc : x = c := Option.some.inj h
      subst hxc
      have : xs = [] := (chooseNext_eq_none_iff cost xs).mp hr
      subst this
      rcases List.mem_singleton.mp hj with rfl
      exact Or.inr ⟨rfl, le_refl _⟩
    | some y =>
      rw [hr] at h
      have h2 : (if cost x ≤ cost y then some x else some y) = some c := h
      by_cases hc : cost x ≤ cost y
      · rw [if_pos hc] at h2
        have hxc : x = c := Option.some.inj h2
        subst hxc
        rcases List.mem_cons.mp hj with rfl | hjx
        · exact Or.inr ⟨rfl, le_refl _⟩
        · have hy := ih y hxs hr j hjx
          rcases hy with hlt | ⟨heq, _⟩
          · exact Or.inl (lt_of_le_of_lt hc hlt)
          · rcases lt_or_eq_of_le hc with hclt | hceq
            · exact Or.inl (hclt.trans_eq heq)
            · exact Or.inr ⟨hceq.trans heq, le_of_lt (hx j hjx)⟩
      · rw [if_neg hc] at h2
        have hyc : y = c := Option.some.inj h2
        subst hyc
        rcases List.mem_cons.mp hj with rfl | hjx
        · exact Or.inl (lt_of_not_le hc)
        · exact ih y hxs hr j hjx

/-- With fuel at least the number of unvisited points, the nearest-neighbor
construction visits exactly the unvisited points. -/
theorem nnFrom_perm {α : Type} [LinearOrder α] (D : Nat → Nat → α) :
    ∀ (fuel cur : Nat) (remaining : List Nat), remaining.length ≤ fuel →
      List.Perm (nnFrom D fuel cur remaining) remaining := by
  intro fuel
  induction fuel with
  | zero =>
    intro cur rem h
    have : rem = [] := List.eq_nil_of_length_eq_zero (Nat.le_zero.mp h)
    subst this
    simp [nnFrom]
  | succ fuel ih =>
    intro cur rem h
    rw [nnFrom]
    cases hr : chooseNext (fun j => D cur j) rem with
    | none =>
      have : rem = [] := (chooseNext_eq_none_iff _ rem).mp hr
      subst this
      simp
    | some c =>
      have hc : c ∈ rem := chooseNext_mem _ rem c hr
      have hpos : 0 < rem.length := List.length_pos.mpr (List.ne_nil_of_mem hc)
      have hlen : (rem.erase c).length ≤ fuel := by
        rw [List.length_erase_of_mem hc]
        omega
      exact ((ih c (rem.erase c) hlen).cons c).trans (List.perm_cons_erase hc).symm

/-- A 2-opt segment reversal is a permutation of the tour. -/
theorem reverseSeg_perm (t : List Nat) (i j : Nat) (hij : i ≤ j + 1) :
    List.Perm (reverseSeg t i j) t := by
  rw [reverseSeg]
  conv_rhs =>
    rw [← List.take_append_drop i t, ← List.take_append_drop (j + 1 - i) (t.drop i)]
  rw [List.drop_drop]
  have harith : i + (j + 1 - i) = j + 1 := by omega
  rw [harith, List.append_assoc]
  exact List.Perm.append_left _ (List.Perm.append_right _ (List.reverse_perm _))

/-- Every candidate 2-opt tour is a permutation of the tour. -/
theorem mem_candidateTours_perm (t u : List Nat) (h : u ∈ candidateTours t) :
    List.Perm u t := by
  rw [candidateTours, List.mem_flatMap] at h
  obtain ⟨i, _, h⟩ := h
  rw [List.mem_map] at h
  obtain ⟨j, _, rfl⟩ := h
  by_cases hij : i < j
  · rw [if_pos hij]
    exact reverseSeg_perm t i j (by omega)
  · rw [if_neg hij]

/-- A 2-opt improvement step permutes the tour. -/
theorem twoOptStep_perm {α : Type} [LinearOrderedAddCommMonoid α]
    (D : Nat → Nat → α) (t u : List Nat) (h : twoOptStep D t = some u) :
    List.Perm u t :=
  mem_candidateTours_perm t u (List.mem_of_find?_eq_some h)

/-- The bounded 2-opt loop permutes the tour. -/
theorem twoOptLoop_perm {α : Type} [LinearOrderedAddCommMonoid α]
    (D : Nat → Nat → α) : ∀ (b : Nat) (t : List Nat),
      List.Perm (twoOptLoop D b t) t := by
  intro b
  induction b with
  | zero => intro t; rw [twoOptLoop]
  | succ b ih =>
    intro t
    rw [twoOptLoop]
    cases hr : twoOptStep D t with
    | none => exact List.Perm.refl t
    | some u => exact (ih u).trans (twoOptStep_perm D t u hr)

/-- The selected start index is always one of the matrix indices. -/
theorem startOf_lt {α : Type} [LinearOrderedAddCommMonoid α]
    (D : Nat → Nat → α) (n : Nat) (st : Option Nat) (hn : n ≠ 0) :
    RouteOptimizer.startOf D n st < n := by
  cases st with
  | some s0 =>
    rw [RouteOptimizer.startOf]
    by_cases hs : s0 < n
    · rwa [if_pos hs]
    · rw [if_neg hs]
      exact Nat.pos_of_ne_zero hn
  | none =>
    rw [RouteOptimizer.startOf]
    cases hr : chooseNext (fun i => pathCost D (nnTour D n i)) (List.range n) with
    | none =>
      rw [Option.getD_none]
      exact Nat.pos_of_ne_zero hn
    | some c =>
      rw [Option.getD_some]
      exact List.mem_range.mp (chooseNext_mem _ _ _ hr)

/-- C1: the index sequence returned by `RouteOptimizer.optimize` is a
permutation of exactly the matrix indices — the indices of the points with
valid geocoding, the unresolvable ones having been excluded from the matrix —
with no index dropped and none repeated; in particular an empty matrix gives
an empty route. -/
theorem RouteOptimizer.optimize_perm_range {α : Type} [LinearOrderedAddCommMonoid α]
    (D : Nat → Nat → α) (n : Nat) (startIndex : Option Nat) :
    List.Perm (RouteOptimizer.optimize D n startIndex) (List.range n) := by
  rw [RouteOptimizer.optimize]
  by_cases hn : n = 0
  · rw [if_pos hn, hn]
    simp
  · rw [if_neg hn]
    have hs : RouteOptimizer.startOf D n startIndex < n := startOf_lt D n startIndex hn
    have hsr : RouteOptimizer.startOf D n startIndex ∈ List.range n := List.mem_range.mpr hs
    refine (twoOptLoop_perm D _ _).trans ?_
    rw [nnTour]
    have hlen : ((List.range n).erase (RouteOptimizer.startOf D n startIndex)).length ≤ n - 1 := by
      rw [List.length_erase_of_mem hsr, List.length_range]
    exact ((nnFrom_perm D (n - 1) _ _ hlen).cons _).trans (List.perm_cons_erase hsr).symm

/-- C2: the optimizer is deterministic — identical matrices and identical
optional start index give the identical tour — and its candidate selection
prefers the lower original input index among equal-cost choices. -/
theorem RouteOptimizer.optimize_deterministic {α : Type} [LinearOrderedAddCommMonoid α]
    (D1 D2 : Nat → Nat → α) (n : Nat) (st : Option Nat)
    (hD : ∀ i j, D1 i j = D2 i j) :
    RouteOptimizer.optimize D1 n st = RouteOptimizer.optimize D2 n st ∧
    (∀ (cost : Nat → α) (l : List Nat) (c : Nat), l.Pairwise (· < ·) →
      chooseNext cost l = some c →
      ∀ j ∈ l, cost c < cost j ∨ (cost c = cost j ∧ c ≤ j)) := by
  have hfun : D1 = D2 := funext fun i => funext fun j => hD i j
  subst hfun
  exact ⟨rfl, fun cost l c hp hc => chooseNext_least cost l c hp hc⟩

/-- Witness for C2: two pointwise-equal integer matrices give the same tour,
and on a constant cost the selection picks the lowest index. -/
theorem RouteOptimizer.optimize_deterministic_witness :
    RouteOptimizer.optimize exD 3 none = RouteOptimizer.optimize exD2 3 none ∧
    (exCost 0 < exCost 2 ∨ (exCost 0 = exCost 2 ∧ 0 ≤ 2)) := by
  have h := RouteOptimizer.optimize_deterministic exD exD2 3 none
    (fun i j => add_comm (i : ℤ) (j : ℤ))
  exact ⟨h.1, h.2 exCost [0, 1, 2] 0 (by decide) (by decide) 2 (by decide)⟩

/-- Prepending a fresh key preserves every successful lookup. -/
theorem lookupTbl_insert_preserve (tbl : Table) (k k2 : String) (v x : Nat)
    (hnone : lookupTbl tbl k2 = none) (h : lookupTbl tbl k = some v) :
    lookupTbl ((k2, x) :: tbl) k = some v := by
  rw [lookupTbl]
  by_cases he : k2 = k
  · subst he
    rw [hnone] at h
    exact absurd h (by simp)
  · rw [if_neg he]
    exact h

/-- An upsert preserves every successful lookup. -/
theorem upsertTbl_preserve (tbl : Table) (k2 : String) (fresh : Nat)
    (k : String) (v : Nat) (h : lookupTbl tbl k = some v) :
    lookupTbl (upsertTbl tbl k2 fresh).1 k = some v := by
  rw [upsertTbl]
  cases hr : lookupTbl tbl k2 with
  | some id => exact h
  | none => exact lookupTbl_insert_preserve tbl k k2 v fresh hr h

/-- After an upsert the key maps to the returned id. -/
theorem upsertTbl_found (tbl : Table) (k : String) (fresh : Nat) :
    lookupTbl (upsertTbl tbl k fresh).1 k = some (upsertTbl tbl k fresh).2.1 := by
  rw [upsertTbl]
  cases hr : lookupTbl tbl k with
  | some id => exact hr
  | none =>
    show lookupTbl ((k, fresh) :: tbl) k = some fresh
    rw [lookupTbl, if_pos rfl]

/-- An upsert of a present key changes nothing and returns the stored id. -/
theorem upsertTbl_hit (tbl : Table) (k : String) (fresh : Nat) (v : Nat)
    (h : lookupTbl tbl k = some v) : upsertTbl tbl k fresh = (tbl, v, fresh) := by
  rw [upsertTbl, h]

/-- Haversine distance is symmetric. -/
theorem haversine_symm (p q : GeoPoint) : haversine p q = haversine q p := by
  have key : ∀ a b : ℝ, Real.sin ((a - b) / 2) ^ 2 = Real.sin ((b - a) / 2) ^ 2 := by
    intro a b
    rw [show (a - b) / 2 = -((b - a) / 2) by ring, Real.sin_neg]
    ring
  rw [haversine, haversine, key q.lat p.lat, key q.lon p.lon,
    mul_comm (Real.cos p.lat) (Real.cos q.lat)]

/-- Haversine distance from a point to itself is zero. -/
theorem haversine_self (p : GeoPoint) : haversine p p = 0 := by
  rw [haversine]
  simp [sub_self, zero_div, Real.sin_zero, Real.sqrt_zero, Real.arcsin_zero]

/-- Indexing with a default into a mapped list, below the length. -/
theorem getD_map_of_lt {β γ : Type} (f : β → γ) (l : List β) (i : Nat) (d : γ)
    (hi : i < l.length) : (l.map f).getD i d = f (l.get ⟨i, hi⟩) := by
  rw [List.getD_eq_getElem _ _ (by simpa using hi), List.getElem_map]
  rfl

/-- Entries of the built matrix are the pairwise haversine distances. -/
theorem build_entry (points : List GeoPoint) (i j : Nat)
    (hi : i < points.length) (hj : j < points.length) :
    ((DistanceMatrixBuilder.build points).getD i []).getD j 0 =
      haversine (points.get ⟨i, hi⟩) (points.get ⟨j, hj⟩) := by
  rw [DistanceMatrixBuilder.build]
  rw [getD_map_of_lt _ points i [] hi]
  rw [getD_map_of_lt _ points j 0 hj]

/-- C5: the matrix built by `DistanceMatrixBuilder.build` over N geocoded
points is symmetric and has a zero diagonal. -/
theorem DistanceMatrixBuilder.build_symm_diag (points : List GeoPoint) (i j : Nat)
    (hi : i < points.length) (hj : j < points.length) :
    ((DistanceMatrixBuilder.build points).getD i []).getD j 0 =
      ((DistanceMatrixBuilder.build points).getD j []).getD i 0 ∧
    ((DistanceMatrixBuilder.build points).getD i []).getD i 0 = 0 := by
  constructor
  · rw [build_entry points i j hi hj, build_entry points j i hj hi]
    exact haversine_symm _ _
  · rw [build_entry points i i hi hi]
    exact haversine_self _

/-- Witness for C5 on a concrete two-point list. -/
theorem DistanceMatrixBuilder.build_symm_diag_witness :
    (((DistanceMatrixBuilder.build [{ lat := 0, lon := 0 }, { lat := 1, lon := 2 }]).getD 0 []).getD 1 0 =
      ((DistanceMatrixBuilder.build [{ lat := 0, lon := 0 }, { lat := 1, lon := 2 }]).getD 1 []).getD 0 0 ∧
    ((DistanceMatrixBuilder.build [{ lat := 0, lon := 0 }, { lat := 1, lon := 2 }]).getD 0 []).getD 0 0 = 0) :=
  DistanceMatrixBuilder.build_symm_diag [{ lat := 0, lon := 0 }, { lat := 1, lon := 2 }] 0 1
    (by simp) (by simp)

/-- A key recorded in the index makes the matcher return EXACT with the
recorded id (section 4.2, step 1). -/
theorem matchEntity_of_lookup (tbl : EntityTable) (scope key : String) (a : Attrs)
    (id : Nat) (hl : lookupTbl tbl.index key = some id) :
    matchEntity tbl scope key a = .exact id := by
  rw [matchEntity, hl]

/-- On an index miss the matcher never returns EXACT. -/
theorem matchEntity_none_ne_exact (tbl : EntityTable) (scope key : String) (a : Attrs)
    (id : Nat) (hl : lookupTbl tbl.index key = none) :
    matchEntity tbl scope key a ≠ .exact id := by
  intro h
  simp only [matchEntity, hl] at h
  split at h
  · exact MatchOutcome.noConfusion h
  · split at h
    · exact MatchOutcome.noConfusion h
    · split at h
      · exact MatchOutcome.noConfusion h
      · exact MatchOutcome.noConfusion h

/-- An EXACT outcome means the key was recorded with that id. -/
theorem matchEntity_exact_lookup (tbl : EntityTable) (scope key : String) (a : Attrs)
    (id : Nat) (h : matchEntity tbl scope key a = .exact id) :
    lookupTbl tbl.index key = some id := by
  cases hl : lookupTbl tbl.index key with
  | some v =>
    rw [matchEntity_of_lookup tbl scope key a v hl] at h
    injection h with h2
    exact congrArg some h2
  | none => exact absurd h (matchEntity_none_ne_exact tbl scope key a id hl)

/-- A FUZZY outcome means the key was not yet recorded. -/
theorem matchEntity_fuzzy_lookup_none (tbl : EntityTable) (scope key : String) (a : Attrs)
    (id : Nat) (h : matchEntity tbl scope key a = .fuzzy id) :
    lookupTbl tbl.index key = none := by
  cases hl : lookupTbl tbl.index key with
  | none => rfl
  | some v =>
    rw [matchEntity_of_lookup tbl scope key a v hl] at h
    exact MatchOutcome.noConfusion h

/-- A NEW outcome means the key was not yet recorded. -/
theorem matchEntity_new_lookup_none (tbl : EntityTable) (scope key : String) (a : Attrs)
    (h : matchEntity tbl scope key a = .new) :
    lookupTbl tbl.index key = none := by
  cases hl : lookupTbl tbl.index key with
  | none => rfl
  | some v =>
    rw [matchEntity_of_lookup tbl scope key a v hl] at h
    exact MatchOutcome.noConfusion h

/-- Resolution records only fresh keys: every successful index lookup
survives it with the same id. -/
theorem resolveEntity_index_le (tbl : EntityTable) (scope key : String) (a : Attrs)
    (fresh : Nat) (k : String) (v : Nat) (h : lookupTbl tbl.index k = some v) :
    lookupTbl (resolveEntity tbl scope key a fresh).1.index k = some v := by
  cases hm : matchEntity tbl scope key a with
  | exact id =>
    rw [resolveEntity, hm]
    exact h
  | fuzzy id =>
    rw [resolveEntity, hm]
    exact lookupTbl_insert_preserve _ _ _ _ _
      (matchEntity_fuzzy_lookup_none tbl scope key a id hm) h
  | ambiguous =>
    rw [resolveEntity, hm]
    exact h
  | new =>
    rw [resolveEntity, hm]
    exact lookupTbl_insert_preserve _ _ _ _ _
      (matchEntity_new_lookup_none tbl scope key a hm) h

/-- When resolution returns an id, the key is afterwards recorded with that
id: EXACT found it, FUZZY recorded the alias, NEW inserted it. -/
theorem resolveEntity_found (tbl : EntityTable) (scope key : String) (a : Attrs)
    (fresh : Nat) (i : Nat) (h : (resolveEntity tbl scope key a fresh).2.1 = some i) :
    lookupTbl (resolveEntity tbl scope key a fresh).1.index key = some i := by
  cases hm : matchEntity tbl scope key a with
  | exact id =>
    rw [resolveEntity, hm] at h ⊢
    have h2 : some id = some i := h
    have h3 : id = i := Option.some.inj h2
    exact (matchEntity_exact_lookup tbl scope key a id hm).trans (congrArg some h3)
  | fuzzy id =>
    rw [resolveEntity, hm] at h ⊢
    have h2 : some id = some i := h
    show lookupTbl ((key, id) :: tbl.index) key = some i
    rw [lookupTbl, if_pos rfl]
    exact h2
  | ambiguous =>
    rw [resolveEntity, hm] at h
    exact absurd h (by simp)
  | new =>
    rw [resolveEntity, hm] at h ⊢
    have h2 : some fresh = some i := h
    show lookupTbl ((key, fresh) :: tbl.index) key = some i
    rw [lookupTbl, if_pos rfl]
    exact h2

/-- Resolving a key that is already recorded is an EXACT hit: the index is
unchanged and the stored id is returned; only the matched row is
merge-filled. -/
theorem resolveEntity_hit (tbl : EntityTable) (scope key : String) (a : Attrs)
    (fresh : Nat) (i : Nat) (hl : lookupTbl tbl.index key = some i) :
    resolveEntity tbl scope key a fresh =
      ({ index := tbl.index, rows := updateRow tbl.rows i a }, some i, .EXACT, fresh) := by
  rw [resolveEntity, matchEntity_of_lookup tbl scope key a i hl]

/-- Merge-filling a row keeps the number of rows. -/
theorem length_updateRow (rows : List EntityRow) (id : Nat) (a : Attrs) :
    (updateRow rows id a).length = rows.length := by
  rw [updateRow, List.length_map]

/-- Index extension is reflexive. -/
theorem IndexLe_refl (s : Store) : IndexLe s s :=
  ⟨fun _ _ h => h, fun _ _ h => h, fun _ _ h => h, fun _ _ h => h⟩

/-- Index extension is transitive. -/
theorem IndexLe_trans {s t u : Store} (h1 : IndexLe s t) (h2 : IndexLe t u) : IndexLe s u :=
  ⟨fun k v h => h2.1 k v (h1.1 k v h),
   fun k v h => h2.2.1 k v (h1.2.1 k v h),
   fun k v h => h2.2.2.1 k v (h1.2.2.1 k v h),
   fun k v h => h2.2.2.2 k v (h1.2.2.2 k v h)⟩

/-- Index equality is reflexive. -/
theorem IdxEq_refl (s : Store) : IdxEq s s := ⟨rfl, rfl, rfl, rfl⟩

/-- Index equality is transitive. -/
theorem IdxEq_trans {s t u : Store} (h1 : IdxEq s t) (h2 : IdxEq t u) : IdxEq s u :=
  ⟨h1.1.trans h2.1, h1.2.1.trans h2.2.1, h1.2.2.1.trans h2.2.2.1, h1.2.2.2.trans h2.2.2.2⟩

/-- Row-count equality is reflexive. -/
theorem RowsLen_refl (s : Store) : RowsLen s s := ⟨rfl, rfl, rfl⟩

/-- Row-count equality is transitive. -/
theorem RowsLen_trans {s t u : Store} (h1 : RowsLen s t) (h2 : RowsLen t u) : RowsLen s u :=
  ⟨h1.1.trans h2.1, h1.2.1.trans h2.2.1, h1.2.2.trans h2.2.2⟩

/-- The contact step leaves the company table unchanged. -/
theorem resolveContactPart_companies (s : Store) (cid : Nat) (k : Option (String × Attrs)) :
    (resolveContactPart s cid k).1.companies = s.companies := by
  cases k <;> rfl

/-- The contact step leaves the posting table unchanged. -/
theorem resolveContactPart_postings (s : Store) (cid : Nat) (k : Option (String × Attrs)) :
    (resolveContactPart s cid k).1.postings = s.postings := by
  cases k <;> rfl

/-- The contact step leaves the Lead table unchanged. -/
theorem resolveContactPart_leads (s : Store) (cid : Nat) (k : Option (String × Attrs)) :
    (resolveContactPart s cid k).1.leads = s.leads := by
  cases k <;> rfl

/-- The posting step leaves the company table unchanged. -/
theorem resolvePostingPart_companies (s : Store) (cid : Nat) (k : Option (String × Attrs)) :
    (resolvePostingPart s cid k).1.companies = s.companies := by
  cases k <;> rfl

/-- The posting step leaves the contact table unchanged. -/
theorem resolvePostingPart_contacts (s : Store) (cid : Nat) (k : Option (String × Attrs)) :
    (resolvePostingPart s cid k).1.contacts = s.contacts := by
  cases k <;> rfl

/-- The posting step leaves the Lead table unchanged. -/
theorem resolvePostingPart_leads (s : Store) (cid : Nat) (k : Option (String × Attrs)) :
    (resolvePostingPart s cid k).1.leads = s.leads := by
  cases k <;> rfl

/-- The Lead step leaves the company table unchanged. -/
theorem resolveLeadPart_companies (s : Store) (cid : Nat) (hp : Bool) (pid : Option Nat) :
    (resolveLeadPart s cid hp pid).1.companies = s.companies := by
  rw [resolveLeadPart]
  split <;> rfl

/-- The Lead step leaves the contact table unchanged. -/
theorem resolveLeadPart_contacts (s : Store) (cid : Nat) (hp : Bool) (pid : Option Nat) :
    (resolveLeadPart s cid hp pid).1.contacts = s.contacts := by
  rw [resolveLeadPart]
  split <;> rfl

/-- The Lead step leaves the posting table unchanged. -/
theorem resolveLeadPart_postings (s : Store) (cid : Nat) (hp : Bool) (pid : Option Nat) :
    (resolveLeadPart s cid hp pid).1.postings = s.postings := by
  rw [resolveLeadPart]
  split <;> rfl

/-- The contact step only extends the indexes. -/
theorem resolveContactPart_le (s : Store) (cid : Nat) (k : Option (String × Attrs)) :
    IndexLe s (resolveContactPart s cid k).1 := by
  cases k with
  | none => exact IndexLe_refl s
  | some ka =>
    exact ⟨fun k v h => h, fun k v h => resolveEntity_index_le _ _ _ _ _ _ _ h,
      fun k v h => h, fun k v h => h⟩

/-- The posting step only extends the indexes. -/
theorem resolvePostingPart_le (s : Store) (cid : Nat) (k : Option (String × Attrs)) :
    IndexLe s (resolvePostingPart s cid k).1 := by
  cases k with
  | none => exact IndexLe_refl s
  | some ka =>
    exact ⟨fun k v h => h, fun k v h => h,
      fun k v h => resolveEntity_index_le _ _ _ _ _ _ _ h, fun k v h => h⟩

/-- The Lead step only extends the indexes. -/
theorem resolveLeadPart_le (s : Store) (cid : Nat) (hp : Bool) (pid : Option Nat) :
    IndexLe s (resolveLeadPart s cid hp pid).1 := by
  rw [resolveLeadPart]
  by_cases hif : hp = true ∧ pid = none
  · rw [if_pos hif]
    exact IndexLe_refl s
  · rw [if_neg hif]
    exact ⟨fun k v h => h, fun k v h => h, fun k v h => h,
      fun k v h => upsertTbl_preserve _ _ _ k v h⟩

/-- Resolving one candidate only extends the indexes. -/
theorem resolveCandidate_indexLe (st : Store) (c : Candidate) :
    IndexLe st (resolveCandidate st c).1 := by
  simp only [resolveCandidate]
  cases hc : (resolveEntity st.companies (companyScope c.companyAttrs) c.companyKey
      c.companyAttrs st.nextId).2.1 with
  | none =>
    exact ⟨fun k v h => resolveEntity_index_le _ _ _ _ _ _ _ h, fun k v h => h,
      fun k v h => h, fun k v h => h⟩
  | some cid =>
    have h1 : IndexLe st
        { st with
          companies := (resolveEntity st.companies (companyScope c.companyAttrs)
            c.companyKey c.companyAttrs st.nextId).1,
          nextId := (resolveEntity st.companies (companyScope c.companyAttrs)
            c.companyKey c.companyAttrs st.nextId).2.2.2 } :=
      ⟨fun k v h => resolveEntity_index_le _ _ _ _ _ _ _ h, fun k v h => h,
        fun k v h => h, fun k v h => h⟩
    exact IndexLe_trans h1 (IndexLe_trans (resolveContactPart_le _ _ _)
      (IndexLe_trans (resolvePostingPart_le _ _ _) (resolveLeadPart_le _ _ _ _)))

/-- Settledness is preserved by index extension. -/
theorem SettledIn_mono {s t : Store} (c : Candidate) (r : ResolvedIds)
    (hle : IndexLe s t) (h : SettledIn s c r) : SettledIn t c r := by
  obtain ⟨cid, h1, h2, h3, h4, lid, h5, h6⟩ := h
  refine ⟨cid, h1, hle.1 _ _ h2, ?_, ?_, lid, h5, hle.2.2.2 _ _ h6⟩
  · cases hk : c.contact with
    | none =>
      rw [hk] at h3
      cases hi : r.contactId with
      | none => trivial
      | some i => rw [hi] at h3; exact h3.elim
    | some ka =>
      rw [hk] at h3
      cases hi : r.contactId with
      | none => rw [hi] at h3; exact h3.elim
      | some i =>
        rw [hi] at h3
        exact hle.2.1 _ _ h3
  · cases hk : c.posting with
    | none =>
      rw [hk] at h4
      cases hi : r.postingId with
      | none => trivial
      | some i => rw [hi] at h4; exact h4.elim
    | some ka =>
      rw [hk] at h4
      cases hi : r.postingId with
      | none => rw [hi] at h4; exact h4.elim
      | some i =>
        rw [hi] at h4
        exact hle.2.2.1 _ _ h4

/-- Settledness depends only on the indexes, so it transports along index
equality. -/
theorem SettledIn_of_IdxEq {s t : Store} (c : Candidate) (r : ResolvedIds)
    (heq : IdxEq s t) (h : SettledIn t c r) : SettledIn s c r := by
  obtain ⟨hco, hct, hpo, hld⟩ := heq
  obtain ⟨cid, h1, h2, h3, h4, lid, h5, h6⟩ := h
  refine ⟨cid, h1, ?_, ?_, ?_, lid, h5, ?_⟩
  · rw [hco]; exact h2
  · cases hk : c.contact with
    | none =>
      rw [hk] at h3
      cases hi : r.contactId with
      | none => trivial
      | some i => rw [hi] at h3; exact h3.elim
    | some ka =>
      rw [hk] at h3
      cases hi : r.contactId with
      | none => rw [hi] at h3; exact h3.elim
      | some i =>
        rw [hi] at h3
        show lookupTbl s.contacts.index (scopedKey cid ka.1) = some i
        rw [hct]
        exact h3
  · cases hk : c.posting with
    | none =>
      rw [hk] at h4
      cases hi : r.postingId with
      | none => trivial
      | some i => rw [hi] at h4; exact h4.elim
    | some ka =>
      rw [hk] at h4
      cases hi : r.postingId with
      | none => rw [hi] at h4; exact h4.elim
      | some i =>
        rw [hi] at h4
        show lookupTbl s.postings.index (scopedKey cid ka.1) = some i
        rw [hpo]
        exact h4
  · rw [hld]; exact h6

/-- After resolving a candidate, if nothing about it was held, every identity
key it gave rise to is recorded with the returned id — EXACT hits were
already recorded, FUZZY recorded the alias, NEW inserted the key. -/
theorem resolveCandidate_post (st : Store) (c : Candidate)
    (hu : Unheld c (resolveCandidate st c).2.1) :
    SettledIn (resolveCandidate st c).1 c (resolveCandidate st c).2.1 := by
  rcases c with ⟨ck, ca, tk, pk⟩
  simp only [resolveCandidate] at hu ⊢
  cases hc : (resolveEntity st.companies (companyScope ca) ck ca st.nextId).2.1 with
  | none =>
    rw [hc] at hu
    exact absurd hu.1 (by simp)
  | some cid =>
    rw [hc] at hu
    dsimp only at hu ⊢
    cases tk with
    | none =>
      cases pk with
      | none =>
        refine ⟨cid, rfl, ?_, trivial, trivial, ?_⟩
        · rw [resolveLeadPart_companies, resolvePostingPart_companies,
            resolveContactPart_companies]
          exact resolveEntity_found _ _ _ _ _ _ hc
        · simp only [resolveLeadPart]
          rw [if_neg (by simp)]
          exact ⟨_, rfl, upsertTbl_found _ _ _⟩
      | some pka =>
        cases hpt : (resolvePostingPart
            (resolveContactPart
              { st with
                companies := (resolveEntity st.companies (companyScope ca) ck ca
                  st.nextId).1,
                nextId := (resolveEntity st.companies (companyScope ca) ck ca
                  st.nextId).2.2.2 } cid none).1 cid (some pka)).2.1 with
        | none =>
          rw [hpt] at hu
          exact absurd (hu.2.2.1 rfl) (by simp)
        | some i2 =>
          refine ⟨cid, rfl, ?_, trivial, ?_, ?_⟩
          · rw [resolveLeadPart_companies, resolvePostingPart_companies,
              resolveContactPart_companies]
            exact resolveEntity_found _ _ _ _ _ _ hc
          · rw [resolveLeadPart_postings]
            exact resolveEntity_found _ _ _ _ _ _ hpt
          · simp only [resolveLeadPart]
            rw [if_neg (by simp)]
            exact ⟨_, rfl, upsertTbl_found _ _ _⟩
    | some tka =>
      cases hct : (resolveContactPart
          { st with
            companies := (resolveEntity st.companies (companyScope ca) ck ca
              st.nextId).1,
            nextId := (resolveEntity st.companies (companyScope ca) ck ca
              st.nextId).2.2.2 } cid (some tka)).2.1 with
      | none =>
        rw [hct] at hu
        exact absurd (hu.2.1 rfl) (by simp)
      | some i1 =>
        cases pk with
        | none =>
          refine ⟨cid, rfl, ?_, ?_, trivial, ?_⟩
          · rw [resolveLeadPart_companies, resolvePostingPart_companies,
              resolveContactPart_companies]
            exact resolveEntity_found _ _ _ _ _ _ hc
          · rw [resolveLeadPart_contacts, resolvePostingPart_contacts]
            exact resolveEntity_found _ _ _ _ _ _ hct
          · simp only [resolveLeadPart]
            rw [if_neg (by simp)]
            exact ⟨_, rfl, upsertTbl_found _ _ _⟩
        | some pka =>
          cases hpt : (resolvePostingPart
              (resolveContactPart
                { st with
                  companies := (resolveEntity st.companies (companyScope ca) ck ca
                    st.nextId).1,
                  nextId := (resolveEntity st.companies (companyScope ca) ck ca
                    st.nextId).2.2.2 } cid (some tka)).1 cid (some pka)).2.1 with
          | none =>
            rw [hpt] at hu
            exact absurd (hu.2.2.1 rfl) (by simp)
          | some i2 =>
            refine ⟨cid, rfl, ?_, ?_, ?_, ?_⟩
            · rw [resolveLeadPart_companies, resolvePostingPart_companies,
                resolveContactPart_companies]
              exact resolveEntity_found _ _ _ _ _ _ hc
            · rw [resolveLeadPart_contacts, resolvePostingPart_contacts]
              exact resolveEntity_found _ _ _ _ _ _ hct
            · rw [resolveLeadPart_postings]
              exact resolveEntity_found _ _ _ _ _ _ hpt
            · simp only [resolveLeadPart]
              rw [if_neg (by simp)]
              exact ⟨_, rfl, upsertTbl_found _ _ _⟩

/-- Resolving a candidate that is already settled returns the stored ids,
changes no index and adds no row: every lookup is an EXACT hit, whose only
effect is a row-count-preserving merge-fill. -/
theorem resolveCandidate_stable (st : Store) (c : Candidate) (r : ResolvedIds)
    (h : SettledIn st c r) :
    (resolveCandidate st c).2.1 = r ∧ IdxEq (resolveCandidate st c).1 st ∧
      RowsLen (resolveCandidate st c).1 st := by
  rcases c with ⟨ck, ca, tk, pk⟩
  rcases r with ⟨rc, rt, rp, rl⟩
  obtain ⟨cid, hrc, hlc, hct, hpt, lid, hrl, hll⟩ := h
  subst hrc
  subst hrl
  simp only [resolveCandidate]
  rw [resolveEntity_hit st.companies (companyScope ca) ck ca st.nextId cid hlc]
  dsimp only
  cases tk with
  | none =>
    cases rt with
    | some i1 => exact hct.elim
    | none =>
      simp only [resolveContactPart]
      cases pk with
      | none =>
        cases rp with
        | some i2 => exact hpt.elim
        | none =>
          simp only [resolvePostingPart, resolveLeadPart]
          rw [if_neg (by simp)]
          dsimp only
          rw [upsertTbl_hit _ _ _ _ hll]
          exact ⟨rfl, ⟨rfl, rfl, rfl, rfl⟩, ⟨length_updateRow _ _ _, rfl, rfl⟩⟩
      | some pka =>
        cases rp with
        | none => exact hpt.elim
        | some i2 =>
          have hpt2 : lookupTbl st.postings.index (scopedKey cid pka.1) = some i2 := hpt
          simp only [resolvePostingPart]
          rw [resolveEntity_hit st.postings (idScope cid) (scopedKey cid pka.1) pka.2
            st.nextId i2 hpt2]
          dsimp only
          simp only [resolveLeadPart]
          rw [if_neg (by simp)]
          dsimp only
          rw [upsertTbl_hit _ _ _ _ hll]
          exact ⟨rfl, ⟨rfl, rfl, rfl, rfl⟩,
            ⟨length_updateRow _ _ _, rfl, length_updateRow _ _ _⟩⟩
  | some tka =>
    cases rt with
    | none => exact hct.elim
    | some i1 =>
      have hct2 : lookupTbl st.contacts.index (scopedKey cid tka.1) = some i1 := hct
      simp only [resolveContactPart]
      rw [resolveEntity_hit st.contacts (idScope cid) (scopedKey cid tka.1) tka.2
        st.nextId i1 hct2]
      dsimp only
      cases pk with
      | none =>
        cases rp with
        | some i2 => exact hpt.elim
        | none =>
          simp only [resolvePostingPart, resolveLeadPart]
          rw [if_neg (by simp)]
          dsimp only
          rw [upsertTbl_hit _ _ _ _ hll]
          exact ⟨rfl, ⟨rfl, rfl, rfl, rfl⟩,
            ⟨length_updateRow _ _ _, length_updateRow _ _ _, rfl⟩⟩
      | some pka =>
        cases rp with
        | none => exact hpt.elim
        | some i2 =>
          have hpt2 : lookupTbl st.postings.index (scopedKey cid pka.1) = some i2 := hpt
          simp only [resolvePostingPart]
          rw [resolveEntity_hit st.postings (idScope cid) (scopedKey cid pka.1) pka.2
            st.nextId i2 hpt2]
          dsimp only
          simp only [resolveLeadPart]
          rw [if_neg (by simp)]
          dsimp only
          rw [upsertTbl_hit _ _ _ _ hll]
          exact ⟨rfl, ⟨rfl, rfl, rfl, rfl⟩,
            ⟨length_updateRow _ _ _, length_updateRow _ _ _, length_updateRow _ _ _⟩⟩

/-- Batch resolution only extends the indexes. -/
theorem resolveBatch_indexLe (st : Store) (batch : List Candidate) :
    IndexLe st (IngestionResolver.resolveBatch st batch).1 := by
  induction batch generalizing st with
  | nil => exact IndexLe_refl st
  | cons c cs ih =>
    exact IndexLe_trans (resolveCandidate_indexLe st c) (ih (resolveCandidate st c).1)

/-- After a batch run, every candidate whose resolution held nothing is
settled in the final store with the ids the run returned. -/
theorem resolveBatch_post (st : Store) (batch : List Candidate) :
    List.Forall₂
      (fun c r => Unheld c r → SettledIn (IngestionResolver.resolveBatch st batch).1 c r)
      batch (IngestionResolver.resolveBatch st batch).2.1 := by
  induction batch generalizing st with
  | nil => exact List.Forall₂.nil
  | cons c cs ih =>
    refine List.Forall₂.cons (fun hu => ?_) (ih (resolveCandidate st c).1)
    exact SettledIn_mono c _ (resolveBatch_indexLe (resolveCandidate st c).1 cs)
      (resolveCandidate_post st c hu)

/-- Pointwise combination of two elementwise relations on the same lists. -/
theorem Forall₂_combine {α β : Type} {P Q R : α → β → Prop}
    (h : ∀ a b, P a b → Q a b → R a b) :
    ∀ {l1 : List α} {l2 : List β}, List.Forall₂ P l1 l2 → List.Forall₂ Q l1 l2 →
      List.Forall₂ R l1 l2 := by
  intro l1 l2 hp hq
  induction hp with
  | nil => exact List.Forall₂.nil
  | cons hpc _ ih =>
    cases hq with
    | cons hqc hqt => exact List.Forall₂.cons (h _ _ hpc hqc) (ih hqt)

/-- Running a batch of settled candidates returns exactly the stored ids and
neither records a key nor adds a row. -/
theorem resolveBatch_stable (st1 : Store) (batch : List Candidate)
    (rs : List ResolvedIds) (hset : List.Forall₂ (SettledIn st1) batch rs) :
    ∀ st, IdxEq st st1 → RowsLen st st1 →
      (IngestionResolver.resolveBatch st batch).2.1 = rs ∧
      IdxEq (IngestionResolver.resolveBatch st batch).1 st1 ∧
      RowsLen (IngestionResolver.resolveBatch st batch).1 st1 := by
  induction hset with
  | nil =>
    intro st hidx hrows
    exact ⟨rfl, hidx, hrows⟩
  | cons hcr _ ih =>
    intro st hidx hrows
    have hs := SettledIn_of_IdxEq _ _ hidx hcr
    obtain ⟨hid, hi1, hr1⟩ := resolveCandidate_stable st _ _ hs
    obtain ⟨h2, h3, h4⟩ := ih (resolveCandidate st _).1 (IdxEq_trans hi1 hidx)
      (RowsLen_trans hr1 hrows)
    refine ⟨?_, h3, h4⟩
    simp only [IngestionResolver.resolveBatch]
    rw [hid, h2]

/-- C4 (corrected): when the first run resolves every candidate fully — no
company, contact or posting held as AMBIGUOUS — re-importing the same batch
over the store the first run produced returns the identical resolved entity
ids and creates no additional Company, Contact, JobPosting or Lead rows: the
identity-key indexes and the Lead table are unchanged and every entity table
keeps its row count. Every key the first run resolved is recorded in the
index (EXACT from before, NEW by insertion, FUZZY by the dedup-memory alias),
so the second run hits exactly and never re-enters fuzzy scoring. -/
theorem IngestionResolver.resolveBatch_idempotent_of_unheld (st0 : Store)
    (batch : List Candidate)
    (hall : List.Forall₂ Unheld batch (IngestionResolver.resolveBatch st0 batch).2.1) :
    (IngestionResolver.resolveBatch (IngestionResolver.resolveBatch st0 batch).1 batch).2.1 =
      (IngestionResolver.resolveBatch st0 batch).2.1 ∧
    NoNewRows
      (IngestionResolver.resolveBatch (IngestionResolver.resolveBatch st0 batch).1 batch).1
      (IngestionResolver.resolveBatch st0 batch).1 := by
  have hset : List.Forall₂ (SettledIn (IngestionResolver.resolveBatch st0 batch).1) batch
      (IngestionResolver.resolveBatch st0 batch).2.1 :=
    Forall₂_combine (fun c r hp hu => hp hu) (resolveBatch_post st0 batch) hall
  obtain ⟨h1, h2, h3⟩ := resolveBatch_stable _ _ _ hset _
    (IdxEq_refl (IngestionResolver.resolveBatch st0 batch).1)
    (RowsLen_refl (IngestionResolver.resolveBatch st0 batch).1)
  exact ⟨h1, h2, h3⟩

/-- Witness for C4 on a concrete batch over an empty store: the first
candidate creates company, contact, posting and lead; the second re-scrapes
the same posting (same ids, no second Lead); the third fuzzy-merges into the
stored company under a new identity key. Nothing is held, and the re-import
returns the identical ids over an unchanged store shape. -/
theorem resolveBatch_idempotent_of_unheld_witness :
    (IngestionResolver.resolveBatch (IngestionResolver.resolveBatch wStore wBatch).1
        wBatch).2.1 =
      (IngestionResolver.resolveBatch wStore wBatch).2.1 ∧
    NoNewRows
      (IngestionResolver.resolveBatch (IngestionResolver.resolveBatch wStore wBatch).1
        wBatch).1
      (IngestionResolver.resolveBatch wStore wBatch).1 := by
  have hrs : (IngestionResolver.resolveBatch wStore wBatch).2.1 =
      [{ companyId := some 1, contactId := some 2, postingId := some 3, leadId := some 4 },
       { companyId := some 1, contactId := none, postingId := some 3, leadId := some 4 },
       { companyId := some 1, contactId := none, postingId := none, leadId := some 5 }] := by
    decide
  have hall : List.Forall₂ Unheld wBatch (IngestionResolver.resolveBatch wStore wBatch).2.1 := by
    rw [hrs]
    exact List.Forall₂.cons (by decide) (List.Forall₂.cons (by decide)
      (List.Forall₂.cons (by decide) List.Forall₂.nil))
  exact IngestionResolver.resolveBatch_idempotent_of_unheld wStore wBatch hall

/-- Counterexample for C4 as stated: in `cexBatch` over `cexStore` the first
candidate ties two stored companies at the top score and is held as
AMBIGUOUS, resolving to no ids; the second candidate shares its identity key
but has an unrelated name, scores below threshold, and creates a fresh
company under that key. On re-import the first candidate now EXACT-hits the
key the second claimed and resolves to that company and its lead — the final
entity ids of the two runs differ, so re-import is not unconditionally
idempotent. -/
theorem resolveBatch_not_idempotent_cex :
    (IngestionResolver.resolveBatch cexStore cexBatch).2.1 =
      [{ companyId := none, contactId := none, postingId := none, leadId := none },
       { companyId := some 3, contactId := none, postingId := none, leadId := some 4 }] ∧
    (IngestionResolver.resolveBatch (IngestionResolver.resolveBatch cexStore cexBatch).1
        cexBatch).2.1 =
      [{ companyId := some 3, contactId := none, postingId := none, leadId := some 4 },
       { companyId := some 3, contactId := none, postingId := none, leadId := some 4 }] ∧
    (IngestionResolver.resolveBatch (IngestionResolver.resolveBatch cexStore cexBatch).1
        cexBatch).2.1 ≠
      (IngestionResolver.resolveBatch cexStore cexBatch).2.1 := by
  refine ⟨by decide, by decide, by decide⟩
